import Mathlib

/-!
Verification development for the FileCachingServer persistent cache subsystem
(`src/services/hasher.js`, `src/services/cache.js`, `src/services/fetcher.js`).

The embedding models:
  * `hashURL` — SHA-256 over the UTF-8 bytes of the URL, hex-encoded
    (the source delegates to node's `crypto.createHash('sha256')`; the full
    algorithm is embedded here over `Nat` with explicit reduction mod 2^32);
  * the cache service — an in-memory index (a string-keyed association list
    with JavaScript object-literal update semantics: update-in-place for an
    existing key, append for a new one), a filesystem mapping paths to
    documents, and the operations `initializeCache`, `saveIndex`, `get`,
    `set`, `list` translated statement by statement.

File contents are modelled as structured documents (`FileData`): the raw
content bytes, a serialized metadata document, a serialized index document,
or unparseable text (`corrupt`).  `JSON.parse` succeeding is modelled as the
file holding a document of the expected kind.

`set` and `saveIndex` are modelled as the list of primitive filesystem /
in-memory steps the JavaScript performs (`setOps`, `saveIndexOps`), run by a
short-circuiting interpreter `runOps`; this exposes every intermediate
(crash / failure) state as the run of a prefix of the op list.  I/O failures
other than file-absence (permission errors, disk errors) are modelled by a
set of `bad` paths on which reads and writes fail with `eacces`.
-/

namespace FileCache

/-- Raw bytes of a file or response body (each entry intended < 256). -/
abbrev Bytes := List Nat

/-- A 32-bit truncation: the JavaScript-side SHA-256 works on 32-bit words. -/
def w32 (n : Nat) : Nat := n % 4294967296

/-- Right rotation of a 32-bit word. -/
def rotr (x n : Nat) : Nat := w32 ((x >>> n) ||| (x <<< (32 - n)))

/-- Bitwise complement within 32 bits. -/
def bnot32 (x : Nat) : Nat := x ^^^ 4294967295

/-- SHA-256 choice function. -/
def sha256Ch (e f g : Nat) : Nat := (e &&& f) ^^^ (bnot32 e &&& g)

/-- SHA-256 majority function. -/
def sha256Maj (a b c : Nat) : Nat := (a &&& b) ^^^ (a &&& c) ^^^ (b &&& c)

/-- SHA-256 big sigma 0. -/
def bsig0 (a : Nat) : Nat := rotr a 2 ^^^ rotr a 13 ^^^ rotr a 22

/-- SHA-256 big sigma 1. -/
def bsig1 (e : Nat) : Nat := rotr e 6 ^^^ rotr e 11 ^^^ rotr e 25

/-- SHA-256 small sigma 0. -/
def ssig0 (x : Nat) : Nat := rotr x 7 ^^^ rotr x 18 ^^^ (x >>> 3)

/-- SHA-256 small sigma 1. -/
def ssig1 (x : Nat) : Nat := rotr x 17 ^^^ rotr x 19 ^^^ (x >>> 10)

/-- The 64 SHA-256 round constants. -/
def sha256K : List Nat :=
  -- the 64 round constants of FIPS 180-4, in decimal
  [1116352408, 1899447441, 3049323471, 3921009573, 961987163,
   1508970993, 2453635748, 2870763221, 3624381080, 310598401,
   607225278, 1426881987, 1925078388, 2162078206, 2614888103,
   3248222580, 3835390401, 4022224774, 264347078, 604807628,
   770255983, 1249150122, 1555081692, 1996064986, 2554220882,
   2821834349, 2952996808, 3210313671, 3336571891, 3584528711,
   113926993, 338241895, 666307205, 773529912, 1294757372,
   1396182291, 1695183700, 1986661051, 2177026350, 2456956037,
   2730485921, 2820302411, 3259730800, 3345764771, 3516065817,
   3600352804, 4094571909, 275423344, 430227734, 506948616,
   659060556, 883997877, 958139571, 1322822218, 1537002063,
   1747873779, 1955562222, 2024104815, 2227730452, 2361852424,
   2428436474, 2756734187, 3204031479, 3329325298]

/-- Working state of the SHA-256 compression function: eight 32-bit words. -/
structure Sha256St where
  a : Nat
  b : Nat
  c : Nat
  d : Nat
  e : Nat
  f : Nat
  g : Nat
  h : Nat
deriving DecidableEq

/-- The SHA-256 initial hash value. -/
def sha256H0 : Sha256St :=
  ⟨0x6a09e667, 0xbb67ae85, 0x3c6ef372, 0xa54ff53a, 0x510e527f, 0x9b05688c, 0x1f83d9ab, 0x5be0cd19⟩

/-- One SHA-256 round with round constant `k` and schedule word `w`. -/
def sha256Round (s : Sha256St) (k w : Nat) : Sha256St :=
  let t1 := w32 (s.h + bsig1 s.e + sha256Ch s.e s.f s.g + k + w)
  let t2 := w32 (bsig0 s.a + sha256Maj s.a s.b s.c)
  ⟨w32 (t1 + t2), s.a, s.b, s.c, w32 (s.d + t1), s.e, s.f, s.g⟩

/-- Combine bytes into 32-bit words, big-endian, four at a time. -/
def toWords : List Nat → List Nat
  | b0 :: b1 :: b2 :: b3 :: rest =>
      (b0 * 16777216 + b1 * 65536 + b2 * 256 + b3) :: toWords rest
  | _ => []

/-- One step of the message-schedule extension: append word `W[n]` computed
from the last 2, 7, 15 and 16 words. -/
def extendStep (ws : List Nat) : List Nat :=
  let n := ws.length
  let g := fun (i : Nat) => ws.getD (n - i) 0
  ws ++ [w32 (ssig1 (g 2) + g 7 + ssig0 (g 15) + g 16)]

/-- Extend the 16 block words to the 64-word message schedule. -/
def sha256Schedule (ws : List Nat) : List Nat :=
  (List.range 48).foldl (fun acc _ => extendStep acc) ws

/-- Compress one block (given as its 16 32-bit words) into the hash state. -/
def compressBlock (s : Sha256St) (block : List Nat) : Sha256St :=
  let ws := sha256Schedule block
  let t := (List.zip sha256K ws).foldl (fun st p => sha256Round st p.1 p.2) s
  ⟨w32 (s.a + t.a), w32 (s.b + t.b), w32 (s.c + t.c), w32 (s.d + t.d),
   w32 (s.e + t.e), w32 (s.f + t.f), w32 (s.g + t.g), w32 (s.h + t.h)⟩

/-- Big-endian 8-byte encoding of a (bit-length) number. -/
def be64 (n : Nat) : List Nat :=
  [(n >>> 56) % 256, (n >>> 48) % 256, (n >>> 40) % 256, (n >>> 32) % 256,
   (n >>> 24) % 256, (n >>> 16) % 256, (n >>> 8) % 256, n % 256]

/-- Big-endian 4-byte encoding of a 32-bit word. -/
def be32 (n : Nat) : List Nat :=
  [(n >>> 24) % 256, (n >>> 16) % 256, (n >>> 8) % 256, n % 256]

/-- SHA-256 padding: append 0x80, zero bytes, and the 64-bit big-endian bit
length, reaching a multiple of 64 bytes. -/
def padMessage (msg : List Nat) : List Nat :=
  let L := msg.length
  let k := (64 + 56 - ((L + 1) % 64)) % 64
  msg ++ [0x80] ++ List.replicate k 0 ++ be64 (8 * L)

/-- Split a word list into 16-word blocks (the padded message is always a
whole number of blocks; a trailing fragment would be dropped). -/
def toBlocks : List Nat → List (List Nat)
  | w0 :: w1 :: w2 :: w3 :: w4 :: w5 :: w6 :: w7 ::
    w8 :: w9 :: w10 :: w11 :: w12 :: w13 :: w14 :: w15 :: rest =>
      [w0, w1, w2, w3, w4, w5, w6, w7, w8, w9, w10, w11, w12, w13, w14, w15] :: toBlocks rest
  | _ => []

/-- Serialize the final hash state as 32 big-endian bytes. -/
def stateToBytes (s : Sha256St) : List Nat :=
  be32 s.a ++ be32 s.b ++ be32 s.c ++ be32 s.d ++ be32 s.e ++ be32 s.f ++ be32 s.g ++ be32 s.h

/-- SHA-256 of a byte sequence, as 32 bytes. -/
def sha256 (msg : List Nat) : List Nat :=
  stateToBytes ((toBlocks (toWords (padMessage msg))).foldl compressBlock sha256H0)

/-- UTF-8 encoding of one character. -/
def utf8Char (c : Char) : List Nat :=
  let n := c.toNat
  if n < 0x80 then [n]
  else if n < 0x800 then [0xc0 ||| (n >>> 6), 0x80 ||| (n &&& 0x3f)]
  else if n < 0x10000 then
    [0xe0 ||| (n >>> 12), 0x80 ||| ((n >>> 6) &&& 0x3f), 0x80 ||| (n &&& 0x3f)]
  else
    [0xf0 ||| (n >>> 18), 0x80 ||| ((n >>> 12) &&& 0x3f),
     0x80 ||| ((n >>> 6) &&& 0x3f), 0x80 ||| (n &&& 0x3f)]

/-- UTF-8 encoding of a string (node's `hash.update(url)` default encoding). -/
def utf8Encode (s : String) : List Nat := (s.data.map utf8Char).flatten

/-- Hex digit character for a value below 16 (lowercase, as node produces). -/
def hexDigit (n : Nat) : Char := Char.ofNat (if n < 10 then 48 + n else 87 + n)

/-- Two hex digit characters for one byte. -/
def byteHex (b : Nat) : List Char := [hexDigit (b / 16 % 16), hexDigit (b % 16)]

/-- Lowercase hex encoding of a byte sequence. -/
def hexOfBytes (bs : List Nat) : String := String.mk ((bs.map byteHex).flatten)

/-- Cache key derivation, from `hashURL` in `src/services/hasher.js`:
SHA-256 of the URL, hex-encoded to a 64-character string. -/
def hashURL (url : String) : String := hexOfBytes (sha256 (utf8Encode url))

/-- Errors a cache operation can surface: `enoent` is a missing-file error
(JavaScript error with `code === 'ENOENT'`), `eacces` stands for any other
I/O failure (permission denied, disk error), `syntaxError` is a
`JSON.parse` failure (which carries no `code`). -/
inductive JsError where
  | enoent
  | eacces
  | syntaxError
deriving DecidableEq

/-- Summary record the index keeps per key (`index[hash] = {url, byteSize,
cachedAt}` in `set`). -/
structure IndexRecord where
  url : String
  byteSize : Nat
  cachedAt : String
deriving DecidableEq

/-- The metadata document written per entry (`metadata` object in `set`). -/
structure Metadata where
  url : String
  hash : String
  contentType : String
  statusCode : Nat
  byteSize : Nat
  cachedAt : String
  headers : List (String × String)
deriving DecidableEq

/-- The response descriptor `set` consumes (`fetchURL` result minus body). -/
structure RespDesc where
  statusCode : Nat
  headers : List (String × String)
  contentType : String
deriving DecidableEq

/-- The in-memory index: a string-keyed association list with JavaScript
object-literal semantics (first match wins on lookup; assignment updates the
existing entry in place or appends a new one; 64-hex-character keys are
plain string properties, so `Object.values` iterates in insertion order). -/
abbrev IndexMap := List (String × IndexRecord)

/-- Property lookup, `index[hash]`. -/
def idxLookup : IndexMap → String → Option IndexRecord
  | [], _ => none
  | (k, r) :: rest, key => if k = key then some r else idxLookup rest key

/-- Property assignment, `index[hash] = rec`. -/
def idxSet : IndexMap → String → IndexRecord → IndexMap
  | [], key, rec => [(key, rec)]
  | (k, r) :: rest, key, rec =>
      if k = key then (k, rec) :: rest else (k, r) :: idxSet rest key rec

/-- Property deletion, `delete index[hash]`. -/
def idxErase : IndexMap → String → IndexMap
  | [], _ => []
  | (k, r) :: rest, key => if k = key then rest else (k, r) :: idxErase rest key

/-- Content of one file, as a structured document: raw bytes, a serialized
metadata document, a serialized index document, or unparseable text.
`JSON.parse` succeeding with the expected shape is modelled as the file
holding a document of the matching kind. -/
inductive FileData where
  | bytes (b : Bytes)
  | metaDoc (m : Metadata)
  | indexDoc (d : IndexMap)
  | corrupt
deriving DecidableEq

/-- The filesystem: files by absolute path, existing directories, and a set
of `bad` paths on which any I/O fails with a non-`ENOENT` error (the
error-injection point for permission / disk failures). -/
structure Fs where
  files : List (String × FileData)
  dirs : List String
  bad : List String
deriving DecidableEq

/-- Association-list lookup for files. -/
def fsLookup : List (String × FileData) → String → Option FileData
  | [], _ => none
  | (p, d) :: rest, path => if p = path then some d else fsLookup rest path

/-- Association-list overwrite-or-append for files. -/
def fsStore : List (String × FileData) → String → FileData → List (String × FileData)
  | [], path, d => [(path, d)]
  | (p, e) :: rest, path, d =>
      if p = path then (p, d) :: rest else (p, e) :: fsStore rest path d

/-- Association-list removal for files. -/
def fsRemove : List (String × FileData) → String → List (String × FileData)
  | [], _ => []
  | (p, e) :: rest, path => if p = path then rest else (p, e) :: fsRemove rest path

/-- Model of `fs.readFile`: fails with `eacces` on a bad path, `enoent` on a
missing file, and returns the document otherwise. -/
def readFile (fs : Fs) (path : String) : Except JsError FileData :=
  if path ∈ fs.bad then .error .eacces
  else
    match fsLookup fs.files path with
    | none => .error .enoent
    | some d => .ok d

/-- Model of `fs.writeFile`: fails with `eacces` on a bad path, otherwise
replaces the file's content whole. -/
def writeFileFs (fs : Fs) (path : String) (d : FileData) : Except JsError Fs :=
  if path ∈ fs.bad then .error .eacces
  else .ok { fs with files := fsStore fs.files path d }

/-- Model of `fs.rename`: fails with `eacces` when either path is bad, with
`enoent` when the source is missing, and otherwise atomically moves the
source document over the destination. -/
def renameFs (fs : Fs) (src dst : String) : Except JsError Fs :=
  if src ∈ fs.bad ∨ dst ∈ fs.bad then .error .eacces
  else
    match fsLookup fs.files src with
    | none => .error .enoent
    | some d => .ok { fs with files := fsStore (fsRemove fs.files src) dst d }

/-- Model of `fs.mkdir(dir, {recursive: true})`. -/
def mkdirp (fs : Fs) (path : String) : Except JsError Fs :=
  if path ∈ fs.bad then .error .eacces
  else .ok { fs with dirs := if path ∈ fs.dirs then fs.dirs else path :: fs.dirs }

/-- Whole cache state: the configured directory (from which `initializeCache`
derives `indexPath` and `entriesDir`), the in-memory index, and the
filesystem. -/
structure CacheSt where
  cacheDir : String
  index : IndexMap
  fs : Fs
deriving DecidableEq

/-- The index document path, `path.join(cacheDir, 'index.json')`. -/
def indexPath (st : CacheSt) : String := st.cacheDir ++ "/index.json"

/-- The entries directory, `path.join(cacheDir, 'entries')`. -/
def entriesDir (st : CacheSt) : String := st.cacheDir ++ "/entries"

/-- The content artifact path for a key,
`path.join(entriesDir, hash + '.content')`. -/
def contentPath (st : CacheSt) (hash : String) : String :=
  entriesDir st ++ "/" ++ hash ++ ".content"

/-- The metadata artifact path for a key,
`path.join(entriesDir, hash + '.meta.json')`. -/
def metaPath (st : CacheSt) (hash : String) : String :=
  entriesDir st ++ "/" ++ hash ++ ".meta.json"

/-- Primitive steps the cache service performs: a file write, a rename, or
an in-memory index mutation. -/
inductive Op where
  | fsWrite (path : String) (d : FileData)
  | fsRename (src dst : String)
  | memSet (key : String) (rec : IndexRecord)
  | memDel (key : String)
deriving DecidableEq

/-- Effect of one primitive step on the cache state. -/
def stepOp (st : CacheSt) : Op → Except JsError CacheSt
  | .fsWrite path d =>
      match writeFileFs st.fs path d with
      | .error e => .error e
      | .ok fs2 => .ok { st with fs := fs2 }
  | .fsRename src dst =>
      match renameFs st.fs src dst with
      | .error e => .error e
      | .ok fs2 => .ok { st with fs := fs2 }
  | .memSet key rec => .ok { st with index := idxSet st.index key rec }
  | .memDel key => .ok { st with index := idxErase st.index key }

/-- Run a list of steps, stopping at the first failure (a rejected `await`
aborts the rest of the JavaScript function); the state at the failure — and
after any prefix, which models a crash — is exposed. -/
def runOps (st : CacheSt) : List Op → Except JsError Unit × CacheSt
  | [] => (.ok (), st)
  | op :: ops =>
      match stepOp st op with
      | .error e => (.error e, st)
      | .ok st2 => runOps st2 ops

/-- Steps of `saveIndex`: write the serialized index to `index.json.tmp`,
then rename it over `index.json`. -/
def saveIndexOps (ixPath : String) (idx : IndexMap) : List Op :=
  [.fsWrite (ixPath ++ ".tmp") (.indexDoc idx), .fsRename (ixPath ++ ".tmp") ixPath]

/-- The metadata document `set` builds (`new Date().toISOString()` is passed
in as `now`). -/
def setMeta (st : CacheSt) (url : String) (response : RespDesc) (content : Bytes)
    (now : String) : Metadata :=
  { url := url, hash := hashURL url, contentType := response.contentType,
    statusCode := response.statusCode, byteSize := content.length,
    cachedAt := now, headers := response.headers }

/-- The index summary record `set` builds. -/
def setRecord (url : String) (content : Bytes) (now : String) : IndexRecord :=
  { url := url, byteSize := content.length, cachedAt := now }

/-- Steps of `set(url, response, content)`, in source order: write the
content artifact to its `.tmp` sibling and rename it into place, do the same
for the metadata artifact, update the in-memory index, then `saveIndex`
(which serializes the index as updated). -/
def setOps (st : CacheSt) (url : String) (response : RespDesc) (content : Bytes)
    (now : String) : List Op :=
  let hash := hashURL url
  let mPath := metaPath st hash
  let cPath := contentPath st hash
  [.fsWrite (cPath ++ ".tmp") (.bytes content),
   .fsRename (cPath ++ ".tmp") cPath,
   .fsWrite (mPath ++ ".tmp") (.metaDoc (setMeta st url response content now)),
   .fsRename (mPath ++ ".tmp") mPath,
   .memSet hash (setRecord url content now),
   .fsWrite (indexPath st ++ ".tmp") (.indexDoc (idxSet st.index hash (setRecord url content now))),
   .fsRename (indexPath st ++ ".tmp") (indexPath st)]

/-- The cache facade's `set`: run the steps of `setOps`. -/
def set (st : CacheSt) (url : String) (response : RespDesc) (content : Bytes)
    (now : String) : Except JsError Unit × CacheSt :=
  runOps st (setOps st url response content now)

/-- Parsing the metadata artifact (`JSON.parse(metaData)`): only a
serialized metadata document parses to a metadata object; anything else
throws a `SyntaxError` (which carries no `code` property). -/
def parseMeta : FileData → Except JsError Metadata
  | .metaDoc m => .ok m
  | _ => .error .syntaxError

/-- Body of the `try` block in `get`: read both artifacts (`Promise.all`
rejects with the first failure, in array order: metadata, then content),
then parse the metadata. -/
def readEntry (st : CacheSt) (hash : String) : Except JsError (Metadata × FileData) :=
  match readFile st.fs (metaPath st hash) with
  | .error e => .error e
  | .ok metaData =>
      match readFile st.fs (contentPath st hash) with
      | .error e => .error e
      | .ok content =>
          match parseMeta metaData with
          | .error e => .error e
          | .ok metadata => .ok (metadata, content)

/-- The cache facade's `get`: miss when the index has no record for the key;
otherwise read the entry; on an `ENOENT` failure delete the index record,
persist the index, and report a miss; propagate any other failure. -/
def get (st : CacheSt) (url : String) : Except JsError (Option (Metadata × FileData)) × CacheSt :=
  let hash := hashURL url
  match idxLookup st.index hash with
  | none => (.ok none, st)
  | some _ =>
      match readEntry st hash with
      | .ok (metadata, content) => (.ok (some (metadata, content)), st)
      | .error .enoent =>
          let idx2 := idxErase st.index hash
          let st2 := { st with index := idx2 }
          match runOps st2 (saveIndexOps (indexPath st) idx2) with
          | (.ok _, st3) => (.ok none, st3)
          | (.error e, st3) => (.error e, st3)
      | .error e => (.error e, st)

/-- The cache facade's `initializeCache(dir)`: create the entries directory,
then load the index document; if it is absent, start from an empty index and
persist it at once; propagate any other failure. -/
def initializeCache (dir : String) (fs0 : Fs) : Except JsError CacheSt :=
  let st0 : CacheSt := { cacheDir := dir, index := [], fs := fs0 }
  match mkdirp fs0 (entriesDir st0) with
  | .error e => .error e
  | .ok fs1 =>
      match readFile fs1 (indexPath st0) with
      | .ok (.indexDoc d) => .ok { st0 with index := d, fs := fs1 }
      | .ok _ => .error .syntaxError
      | .error .enoent =>
          let st1 : CacheSt := { st0 with fs := fs1 }
          match runOps st1 (saveIndexOps (indexPath st0) []) with
          | (.ok _, st2) => .ok st2
          | (.error e, _) => .error e
      | .error e => .error e

/-- The public shape `list` projects each index record to. -/
structure ListEntry where
  url : String
  byteSize : Nat
deriving DecidableEq

/-- The cache facade's `list`:
`Object.values(index).map(({url, byteSize}) => ({url, byteSize}))`. -/
def list (st : CacheSt) : List ListEntry :=
  st.index.map (fun kr => { url := kr.2.url, byteSize := kr.2.byteSize })

/-! Helper lemmas: string/path discrimination. -/

/-- Character at distance `n` from the end of a string. -/
def nthLast (s : String) (n : Nat) : Option Char := s.data.reverse[n]?

theorem revdata_append (s t : String) :
    (s ++ t).data.reverse = t.data.reverse ++ s.data.reverse := by
  rw [String.data_append s t]
  exact List.reverse_append _ _

theorem nthLast_append (a suf : String) (n : Nat) (h : n < suf.length) :
    nthLast (a ++ suf) n = nthLast suf n := by
  unfold nthLast
  rw [revdata_append]
  exact List.getElem?_append_left (by simpa using h)

theorem ne_of_nthLast_ne {s t : String} (n : Nat) (h : nthLast s n ≠ nthLast t n) : s ≠ t :=
  fun he => h (he ▸ rfl)

theorem strAppend_right_cancel {a b c : String} (h : a ++ c = b ++ c) : a = b := by
  apply String.ext
  have h2 := congrArg String.data h
  rw [String.data_append a c, String.data_append b c] at h2
  exact List.append_cancel_right h2

theorem strAppend_left_cancel {a b c : String} (h : a ++ b = a ++ c) : b = c := by
  apply String.ext
  have h2 := congrArg String.data h
  rw [String.data_append a b, String.data_append a c] at h2
  exact List.append_cancel_left h2

/-- Reassociation: the content temp path is the entry prefix plus a single
concrete suffix. -/
theorem contentTmp_eq (st : CacheSt) (h : String) :
    contentPath st h ++ ".tmp" = entriesDir st ++ "/" ++ h ++ ".content.tmp" := by
  unfold contentPath
  rw [String.append_assoc]
  rfl

theorem metaTmp_eq (st : CacheSt) (h : String) :
    metaPath st h ++ ".tmp" = entriesDir st ++ "/" ++ h ++ ".meta.json.tmp" := by
  unfold metaPath
  rw [String.append_assoc]
  rfl

theorem indexTmp_eq (st : CacheSt) :
    indexPath st ++ ".tmp" = st.cacheDir ++ "/index.json.tmp" := by
  unfold indexPath
  rw [String.append_assoc]
  rfl

theorem content_ne_meta (st : CacheSt) (h k : String) :
    contentPath st h ≠ metaPath st k := by
  apply ne_of_nthLast_ne 0
  rw [show contentPath st h = entriesDir st ++ "/" ++ h ++ ".content" from rfl,
      show metaPath st k = entriesDir st ++ "/" ++ k ++ ".meta.json" from rfl,
      nthLast_append _ ".content" 0 (by decide), nthLast_append _ ".meta.json" 0 (by decide)]
  decide

theorem content_ne_contentTmp (st : CacheSt) (h k : String) :
    contentPath st h ≠ contentPath st k ++ ".tmp" := by
  apply ne_of_nthLast_ne 0
  rw [contentTmp_eq,
      show contentPath st h = entriesDir st ++ "/" ++ h ++ ".content" from rfl,
      nthLast_append _ ".content" 0 (by decide),
      nthLast_append _ ".content.tmp" 0 (by decide)]
  decide

theorem content_ne_metaTmp (st : CacheSt) (h k : String) :
    contentPath st h ≠ metaPath st k ++ ".tmp" := by
  apply ne_of_nthLast_ne 0
  rw [metaTmp_eq,
      show contentPath st h = entriesDir st ++ "/" ++ h ++ ".content" from rfl,
      nthLast_append _ ".content" 0 (by decide),
      nthLast_append _ ".meta.json.tmp" 0 (by decide)]
  decide

theorem content_ne_index (st : CacheSt) (h : String) :
    contentPath st h ≠ indexPath st := by
  apply ne_of_nthLast_ne 0
  rw [show contentPath st h = entriesDir st ++ "/" ++ h ++ ".content" from rfl,
      show indexPath st = st.cacheDir ++ "/index.json" from rfl,
      nthLast_append _ ".content" 0 (by decide),
      nthLast_append _ "/index.json" 0 (by decide)]
  decide

theorem content_ne_indexTmp (st : CacheSt) (h : String) :
    contentPath st h ≠ indexPath st ++ ".tmp" := by
  apply ne_of_nthLast_ne 0
  rw [indexTmp_eq,
      show contentPath st h = entriesDir st ++ "/" ++ h ++ ".content" from rfl,
      nthLast_append _ ".content" 0 (by decide),
      nthLast_append _ "/index.json.tmp" 0 (by decide)]
  decide

theorem meta_ne_contentTmp (st : CacheSt) (h k : String) :
    metaPath st h ≠ contentPath st k ++ ".tmp" := by
  apply ne_of_nthLast_ne 0
  rw [contentTmp_eq,
      show metaPath st h = entriesDir st ++ "/" ++ h ++ ".meta.json" from rfl,
      nthLast_append _ ".meta.json" 0 (by decide),
      nthLast_append _ ".content.tmp" 0 (by decide)]
  decide

theorem meta_ne_metaTmp (st : CacheSt) (h k : String) :
    metaPath st h ≠ metaPath st k ++ ".tmp" := by
  apply ne_of_nthLast_ne 0
  rw [metaTmp_eq,
      show metaPath st h = entriesDir st ++ "/" ++ h ++ ".meta.json" from rfl,
      nthLast_append _ ".meta.json" 0 (by decide),
      nthLast_append _ ".meta.json.tmp" 0 (by decide)]
  decide

theorem meta_ne_index (st : CacheSt) (h : String) :
    metaPath st h ≠ indexPath st := by
  apply ne_of_nthLast_ne 5
  rw [show metaPath st h = entriesDir st ++ "/" ++ h ++ ".meta.json" from rfl,
      show indexPath st = st.cacheDir ++ "/index.json" from rfl,
      nthLast_append _ ".meta.json" 5 (by decide),
      nthLast_append _ "/index.json" 5 (by decide)]
  decide

theorem meta_ne_indexTmp (st : CacheSt) (h : String) :
    metaPath st h ≠ indexPath st ++ ".tmp" := by
  apply ne_of_nthLast_ne 0
  rw [indexTmp_eq,
      show metaPath st h = entriesDir st ++ "/" ++ h ++ ".meta.json" from rfl,
      nthLast_append _ ".meta.json" 0 (by decide),
      nthLast_append _ "/index.json.tmp" 0 (by decide)]
  decide

theorem contentTmp_ne_metaTmp (st : CacheSt) (h k : String) :
    contentPath st h ++ ".tmp" ≠ metaPath st k ++ ".tmp" := by
  apply ne_of_nthLast_ne 4
  rw [contentTmp_eq, metaTmp_eq,
      nthLast_append _ ".content.tmp" 4 (by decide),
      nthLast_append _ ".meta.json.tmp" 4 (by decide)]
  decide

theorem contentTmp_ne_index (st : CacheSt) (h : String) :
    contentPath st h ++ ".tmp" ≠ indexPath st := by
  apply ne_of_nthLast_ne 0
  rw [contentTmp_eq,
      show indexPath st = st.cacheDir ++ "/index.json" from rfl,
      nthLast_append _ ".content.tmp" 0 (by decide),
      nthLast_append _ "/index.json" 0 (by decide)]
  decide

theorem contentTmp_ne_indexTmp (st : CacheSt) (h : String) :
    contentPath st h ++ ".tmp" ≠ indexPath st ++ ".tmp" := by
  apply ne_of_nthLast_ne 4
  rw [contentTmp_eq, indexTmp_eq,
      nthLast_append _ ".content.tmp" 4 (by decide),
      nthLast_append _ "/index.json.tmp" 4 (by decide)]
  decide

theorem metaTmp_ne_index (st : CacheSt) (h : String) :
    metaPath st h ++ ".tmp" ≠ indexPath st := by
  apply ne_of_nthLast_ne 0
  rw [metaTmp_eq,
      show indexPath st = st.cacheDir ++ "/index.json" from rfl,
      nthLast_append _ ".meta.json.tmp" 0 (by decide),
      nthLast_append _ "/index.json" 0 (by decide)]
  decide

theorem metaTmp_ne_indexTmp (st : CacheSt) (h : String) :
    metaPath st h ++ ".tmp" ≠ indexPath st ++ ".tmp" := by
  apply ne_of_nthLast_ne 9
  rw [metaTmp_eq, indexTmp_eq,
      nthLast_append _ ".meta.json.tmp" 9 (by decide),
      nthLast_append _ "/index.json.tmp" 9 (by decide)]
  decide

theorem index_ne_indexTmp (st : CacheSt) :
    indexPath st ≠ indexPath st ++ ".tmp" := by
  apply ne_of_nthLast_ne 0
  rw [indexTmp_eq,
      show indexPath st = st.cacheDir ++ "/index.json" from rfl,
      nthLast_append _ "/index.json" 0 (by decide),
      nthLast_append _ "/index.json.tmp" 0 (by decide)]
  decide

theorem content_inj (st : CacheSt) {h k : String}
    (he : contentPath st h = contentPath st k) : h = k := by
  unfold contentPath at he
  exact strAppend_left_cancel (strAppend_right_cancel he)

theorem meta_inj (st : CacheSt) {h k : String}
    (he : metaPath st h = metaPath st k) : h = k := by
  unfold metaPath at he
  exact strAppend_left_cancel (strAppend_right_cancel he)

/-! Helper lemmas: association lists. -/

theorem fsLookup_store (files : List (String × FileData)) (p q : String) (d : FileData) :
    fsLookup (fsStore files p d) q = if q = p then some d else fsLookup files q := by
  induction files with
  | nil =>
      by_cases h : q = p
      · subst h; simp [fsStore, fsLookup]
      · have h2 : ¬ p = q := fun hh => h hh.symm
        simp [fsStore, fsLookup, h, h2]
  | cons e rest ih =>
      obtain ⟨a, v⟩ := e
      by_cases h1 : a = p
      · subst h1
        by_cases h2 : q = a
        · subst h2; simp [fsStore, fsLookup]
        · have h3 : ¬ a = q := fun hh => h2 hh.symm
          simp [fsStore, fsLookup, h2, h3]
      · by_cases h2 : a = q
        · subst h2
          have hqp : ¬ a = p := h1
          simp [fsStore, fsLookup, h1, hqp]
        · simp [fsStore, fsLookup, h1, h2, ih]

theorem fsLookup_remove_ne (files : List (String × FileData)) (p q : String) (hne : q ≠ p) :
    fsLookup (fsRemove files p) q = fsLookup files q := by
  induction files with
  | nil => simp [fsRemove]
  | cons e rest ih =>
      obtain ⟨a, v⟩ := e
      by_cases h1 : a = p
      · subst h1
        have h2 : ¬ a = q := fun hh => hne hh.symm
        simp [fsRemove, fsLookup, h2]
      · by_cases h2 : a = q
        · subst h2; simp [fsRemove, fsLookup, h1]
        · simp [fsRemove, fsLookup, h1, h2, ih]

theorem idxLookup_set (idx : IndexMap) (p q : String) (r : IndexRecord) :
    idxLookup (idxSet idx p r) q = if q = p then some r else idxLookup idx q := by
  induction idx with
  | nil =>
      by_cases h : q = p
      · subst h; simp [idxSet, idxLookup]
      · have h2 : ¬ p = q := fun hh => h hh.symm
        simp [idxSet, idxLookup, h, h2]
  | cons e rest ih =>
      obtain ⟨a, v⟩ := e
      by_cases h1 : a = p
      · subst h1
        by_cases h2 : q = a
        · subst h2; simp [idxSet, idxLookup]
        · have h3 : ¬ a = q := fun hh => h2 hh.symm
          simp [idxSet, idxLookup, h2, h3]
      · by_cases h2 : a = q
        · subst h2
          simp [idxSet, idxLookup, h1]
        · simp [idxSet, idxLookup, h1, h2, ih]

theorem idxLookup_erase_ne (idx : IndexMap) (p q : String) (hne : q ≠ p) :
    idxLookup (idxErase idx p) q = idxLookup idx q := by
  induction idx with
  | nil => simp [idxErase]
  | cons e rest ih =>
      obtain ⟨a, v⟩ := e
      by_cases h1 : a = p
      · subst h1
        have h2 : ¬ a = q := fun hh => hne hh.symm
        simp [idxErase, idxLookup, h2]
      · by_cases h2 : a = q
        · subst h2; simp [idxErase, idxLookup, h1]
        · simp [idxErase, idxLookup, h1, h2, ih]

/-! Helper lemmas: execution states. -/

/-- All states an execution of `ops` from `st` passes through: the initial
state, then the state after each successful step; a failing step both aborts
the run and leaves the state it found. -/
def statesOf (st : CacheSt) : List Op → List CacheSt
  | [] => [st]
  | op :: ops =>
      st :: (match stepOp st op with
             | .error _ => []
             | .ok st2 => statesOf st2 ops)

theorem runOps_take_mem_statesOf (ops : List Op) (st : CacheSt) (k : Nat) :
    (runOps st (ops.take k)).2 ∈ statesOf st ops := by
  induction ops generalizing st k with
  | nil => simp [runOps, statesOf]
  | cons op ops ih =>
      cases k with
      | zero => simp [runOps, statesOf]
      | succ j =>
          simp only [List.take_succ_cons, runOps]
          cases h : stepOp st op with
          | error e => simp [statesOf, h]
          | ok st2 =>
              simp only [statesOf, h]
              exact List.mem_cons_of_mem _ (ih st2 j)

theorem runOps_snd_mem_statesOf (ops : List Op) (st : CacheSt) :
    (runOps st ops).2 ∈ statesOf st ops := by
  have h := runOps_take_mem_statesOf ops st ops.length
  rwa [List.take_length] at h

theorem stepOp_write_ok {st st2 : CacheSt} {p : String} {d : FileData}
    (h : stepOp st (.fsWrite p d) = .ok st2) :
    p ∉ st.fs.bad ∧ st2 = { st with fs := { st.fs with files := fsStore st.fs.files p d } } := by
  by_cases hb : p ∈ st.fs.bad
  · simp [stepOp, writeFileFs, hb] at h
  · refine ⟨hb, ?_⟩
    simp only [stepOp, writeFileFs, if_neg hb] at h
    exact (Except.ok.inj h).symm

theorem stepOp_rename_ok {st st2 : CacheSt} {src dst : String} {d : FileData}
    (hl : fsLookup st.fs.files src = some d)
    (h : stepOp st (.fsRename src dst) = .ok st2) :
    src ∉ st.fs.bad ∧ dst ∉ st.fs.bad ∧
      st2 = { st with fs := { st.fs with files := fsStore (fsRemove st.fs.files src) dst d } } := by
  by_cases hb : src ∈ st.fs.bad ∨ dst ∈ st.fs.bad
  · simp [stepOp, renameFs, hb] at h
  · push_neg at hb
    refine ⟨hb.1, hb.2, ?_⟩
    have hor : ¬ (src ∈ st.fs.bad ∨ dst ∈ st.fs.bad) := by
      intro hx
      rcases hx with hx | hx
      · exact hb.1 hx
      · exact hb.2 hx
    simp only [stepOp, renameFs, if_neg hor, hl] at h
    exact (Except.ok.inj h).symm

theorem stepOp_memSet_eq (st : CacheSt) (k : String) (r : IndexRecord) :
    stepOp st (.memSet k r) = .ok { st with index := idxSet st.index k r } := rfl

/-- Files after `i` successful steps of `set` (capped at the final state). -/
def setFiles (st : CacheSt) (url : String) (response : RespDesc) (content : Bytes)
    (now : String) : Nat → List (String × FileData)
  | 0 => st.fs.files
  | 1 => fsStore st.fs.files (contentPath st (hashURL url) ++ ".tmp") (.bytes content)
  | 2 => fsStore (fsRemove (setFiles st url response content now 1)
           (contentPath st (hashURL url) ++ ".tmp"))
           (contentPath st (hashURL url)) (.bytes content)
  | 3 => fsStore (setFiles st url response content now 2)
           (metaPath st (hashURL url) ++ ".tmp") (.metaDoc (setMeta st url response content now))
  | 4 => fsStore (fsRemove (setFiles st url response content now 3)
           (metaPath st (hashURL url) ++ ".tmp"))
           (metaPath st (hashURL url)) (.metaDoc (setMeta st url response content now))
  | 5 => setFiles st url response content now 4
  | 6 => fsStore (setFiles st url response content now 5)
           (indexPath st ++ ".tmp")
           (.indexDoc (idxSet st.index (hashURL url) (setRecord url content now)))
  | _ + 7 => fsStore (fsRemove (setFiles st url response content now 6) (indexPath st ++ ".tmp"))
           (indexPath st)
           (.indexDoc (idxSet st.index (hashURL url) (setRecord url content now)))

/-- Whole cache state after `i` successful steps of `set`: the in-memory
index changes exactly at step 5, the files as in `setFiles`, and the bad
paths and directories never change. -/
def setStage (st : CacheSt) (url : String) (response : RespDesc) (content : Bytes)
    (now : String) (i : Nat) : CacheSt :=
  { st with
      index := if i < 5 then st.index
               else idxSet st.index (hashURL url) (setRecord url content now),
      fs := { st.fs with files := setFiles st url response content now i } }

/-- Every state an execution of `set` passes through — including the state
at a failing step and every crash point — is one of the eight stages. -/
theorem statesOf_set (st : CacheSt) (url : String) (response : RespDesc) (content : Bytes)
    (now : String) :
    ∀ s ∈ statesOf st (setOps st url response content now),
      ∃ i, i ≤ 7 ∧ s = setStage st url response content now i := by
  intro s hs
  simp only [setOps, statesOf] at hs
  rcases List.mem_cons.mp hs with h0 | hs
  · exact ⟨0, by omega, by simp [h0, setStage, setFiles]⟩
  revert hs
  cases h1 : stepOp st (.fsWrite (contentPath st (hashURL url) ++ ".tmp") (.bytes content)) with
  | error e => intro hs; simp at hs
  | ok st1 =>
  obtain ⟨-, hst1⟩ := stepOp_write_ok h1
  intro hs
  simp only [statesOf] at hs
  rcases List.mem_cons.mp hs with h0 | hs
  · exact ⟨1, by omega, by simp [h0, hst1, setStage, setFiles]⟩
  revert hs
  have hl1 : fsLookup st1.fs.files (contentPath st (hashURL url) ++ ".tmp")
      = some (.bytes content) := by
    rw [hst1]
    simp [fsLookup_store]
  cases h2 : stepOp st1 (.fsRename (contentPath st (hashURL url) ++ ".tmp")
      (contentPath st (hashURL url))) with
  | error e => intro hs; simp at hs
  | ok st2 =>
  obtain ⟨-, -, hst2⟩ := stepOp_rename_ok hl1 h2
  intro hs
  simp only [statesOf] at hs
  rcases List.mem_cons.mp hs with h0 | hs
  · refine ⟨2, by omega, ?_⟩
    rw [h0, hst2, hst1]
    simp [setStage, setFiles]
  revert hs
  cases h3 : stepOp st2 (.fsWrite (metaPath st (hashURL url) ++ ".tmp")
      (.metaDoc (setMeta st url response content now))) with
  | error e => intro hs; simp at hs
  | ok st3 =>
  obtain ⟨-, hst3⟩ := stepOp_write_ok h3
  intro hs
  simp only [statesOf] at hs
  rcases List.mem_cons.mp hs with h0 | hs
  · refine ⟨3, by omega, ?_⟩
    rw [h0, hst3, hst2, hst1]
    simp [setStage, setFiles]
  revert hs
  have hl3 : fsLookup st3.fs.files (metaPath st (hashURL url) ++ ".tmp")
      = some (.metaDoc (setMeta st url response content now)) := by
    rw [hst3]
    simp [fsLookup_store]
  cases h4 : stepOp st3 (.fsRename (metaPath st (hashURL url) ++ ".tmp")
      (metaPath st (hashURL url))) with
  | error e => intro hs; simp at hs
  | ok st4 =>
  obtain ⟨-, -, hst4⟩ := stepOp_rename_ok hl3 h4
  intro hs
  simp only [statesOf] at hs
  rcases List.mem_cons.mp hs with h0 | hs
  · refine ⟨4, by omega, ?_⟩
    rw [h0, hst4, hst3, hst2, hst1]
    simp [setStage, setFiles]
  revert hs
  rw [stepOp_memSet_eq]
  intro hs
  simp only [statesOf] at hs
  rcases List.mem_cons.mp hs with h0 | hs
  · refine ⟨5, by omega, ?_⟩
    rw [h0, hst4, hst3, hst2, hst1]
    simp [setStage, setFiles]
  revert hs
  set st5 : CacheSt := { st4 with
    index := idxSet st4.index (hashURL url) (setRecord url content now) } with hst5
  cases h6 : stepOp st5 (.fsWrite (indexPath st ++ ".tmp")
      (.indexDoc (idxSet st.index (hashURL url) (setRecord url content now)))) with
  | error e => intro hs; simp at hs
  | ok st6 =>
  obtain ⟨-, hst6⟩ := stepOp_write_ok h6
  intro hs
  simp only [statesOf] at hs
  rcases List.mem_cons.mp hs with h0 | hs
  · refine ⟨6, by omega, ?_⟩
    rw [h0, hst6, hst5, hst4, hst3, hst2, hst1]
    simp [setStage, setFiles]
  revert hs
  have hl6 : fsLookup st6.fs.files (indexPath st ++ ".tmp")
      = some (.indexDoc (idxSet st.index (hashURL url) (setRecord url content now))) := by
    rw [hst6]
    simp [fsLookup_store]
  cases h7 : stepOp st6 (.fsRename (indexPath st ++ ".tmp") (indexPath st)) with
  | error e => intro hs; simp at hs
  | ok st7 =>
  obtain ⟨-, -, hst7⟩ := stepOp_rename_ok hl6 h7
  intro hs
  simp only [statesOf] at hs
  rcases List.mem_cons.mp hs with h0 | hs
  · refine ⟨7, by omega, ?_⟩
    rw [h0, hst7, hst6, hst5, hst4, hst3, hst2, hst1]
    simp [setStage, setFiles]
  simp at hs

theorem runOps_ok_inv {st st2 : CacheSt} {u : Unit} {op : Op} {ops : List Op}
    (h : runOps st (op :: ops) = (.ok u, st2)) :
    ∃ st1, stepOp st op = .ok st1 ∧ runOps st1 ops = (.ok u, st2) := by
  cases hs : stepOp st op with
  | error e =>
      simp only [runOps, hs] at h
      exact absurd h (by simp)
  | ok s1 =>
      simp only [runOps, hs] at h
      exact ⟨s1, rfl, h⟩

/-- A fully successful `set` ends in stage 7, and every path it wrote or
renamed was writable. -/
theorem set_ok_final {st st2 : CacheSt} {url : String} {response : RespDesc} {content : Bytes}
    {now : String} (hset : set st url response content now = (.ok (), st2)) :
    st2 = setStage st url response content now 7 ∧
    contentPath st (hashURL url) ++ ".tmp" ∉ st.fs.bad ∧
    contentPath st (hashURL url) ∉ st.fs.bad ∧
    metaPath st (hashURL url) ++ ".tmp" ∉ st.fs.bad ∧
    metaPath st (hashURL url) ∉ st.fs.bad ∧
    indexPath st ++ ".tmp" ∉ st.fs.bad ∧
    indexPath st ∉ st.fs.bad := by
  simp only [set, setOps] at hset
  obtain ⟨s1, e1, hset⟩ := runOps_ok_inv hset
  obtain ⟨hb1, hs1⟩ := stepOp_write_ok e1
  obtain ⟨s2, e2, hset⟩ := runOps_ok_inv hset
  have hl1 : fsLookup s1.fs.files (contentPath st (hashURL url) ++ ".tmp")
      = some (.bytes content) := by
    rw [hs1]; simp [fsLookup_store]
  obtain ⟨hb1', hb2, hs2⟩ := stepOp_rename_ok hl1 e2
  obtain ⟨s3, e3, hset⟩ := runOps_ok_inv hset
  obtain ⟨hb3, hs3⟩ := stepOp_write_ok e3
  obtain ⟨s4, e4, hset⟩ := runOps_ok_inv hset
  have hl3 : fsLookup s3.fs.files (metaPath st (hashURL url) ++ ".tmp")
      = some (.metaDoc (setMeta st url response content now)) := by
    rw [hs3]; simp [fsLookup_store]
  obtain ⟨hb3', hb4, hs4⟩ := stepOp_rename_ok hl3 e4
  obtain ⟨s5, e5, hset⟩ := runOps_ok_inv hset
  rw [stepOp_memSet_eq] at e5
  have hs5 := (Except.ok.inj e5).symm
  obtain ⟨s6, e6, hset⟩ := runOps_ok_inv hset
  obtain ⟨hb5, hs6⟩ := stepOp_write_ok e6
  obtain ⟨s7, e7, hset⟩ := runOps_ok_inv hset
  have hl6 : fsLookup s6.fs.files (indexPath st ++ ".tmp")
      = some (.indexDoc (idxSet st.index (hashURL url) (setRecord url content now))) := by
    rw [hs6]; simp [fsLookup_store]
  obtain ⟨hb5', hb6, hs7⟩ := stepOp_rename_ok hl6 e7
  simp only [runOps, Prod.mk.injEq] at hset
  have hfinal : st2 = setStage st url response content now 7 := by
    rw [← hset.2, hs7, hs6, hs5, hs4, hs3, hs2, hs1]
    simp [setStage, setFiles]
  have hbad1 : s1.fs.bad = st.fs.bad := by rw [hs1]
  have hbad2 : s2.fs.bad = st.fs.bad := by rw [hs2, hbad1]
  have hbad3 : s3.fs.bad = st.fs.bad := by rw [hs3, hbad2]
  have hbad4 : s4.fs.bad = st.fs.bad := by rw [hs4, hbad3]
  have hbad5 : s5.fs.bad = st.fs.bad := by rw [hs5, hbad4]
  have hbad6 : s6.fs.bad = st.fs.bad := by rw [hs6, hbad5]
  refine ⟨hfinal, hb1, ?_, ?_, ?_, ?_, ?_⟩
  · rw [hbad1] at hb2; exact hb2
  · rw [hbad2] at hb3; exact hb3
  · rw [hbad3] at hb4; exact hb4
  · rw [hbad5] at hb5; exact hb5
  · rw [hbad6] at hb6; exact hb6

/-- When none of the six paths `set` touches is bad, `set` succeeds and ends
in stage 7. -/
theorem set_ok (st : CacheSt) (url : String) (response : RespDesc) (content : Bytes)
    (now : String)
    (h1 : contentPath st (hashURL url) ++ ".tmp" ∉ st.fs.bad)
    (h2 : contentPath st (hashURL url) ∉ st.fs.bad)
    (h3 : metaPath st (hashURL url) ++ ".tmp" ∉ st.fs.bad)
    (h4 : metaPath st (hashURL url) ∉ st.fs.bad)
    (h5 : indexPath st ++ ".tmp" ∉ st.fs.bad)
    (h6 : indexPath st ∉ st.fs.bad) :
    set st url response content now = (.ok (), setStage st url response content now 7) := by
  have e1 : stepOp st (.fsWrite (contentPath st (hashURL url) ++ ".tmp") (.bytes content))
      = .ok (setStage st url response content now 1) := by
    simp [stepOp, writeFileFs, setStage, setFiles, h1]
  have hor1 : ¬ (contentPath st (hashURL url) ++ ".tmp" ∈ st.fs.bad ∨
      contentPath st (hashURL url) ∈ st.fs.bad) := by
    intro hx; rcases hx with hx | hx
    · exact h1 hx
    · exact h2 hx
  have e2 : stepOp (setStage st url response content now 1)
      (.fsRename (contentPath st (hashURL url) ++ ".tmp") (contentPath st (hashURL url)))
      = .ok (setStage st url response content now 2) := by
    simp [stepOp, renameFs, setStage, setFiles, fsLookup_store, hor1]
  have e3 : stepOp (setStage st url response content now 2)
      (.fsWrite (metaPath st (hashURL url) ++ ".tmp")
        (.metaDoc (setMeta st url response content now)))
      = .ok (setStage st url response content now 3) := by
    simp [stepOp, writeFileFs, setStage, setFiles, h3]
  have hor2 : ¬ (metaPath st (hashURL url) ++ ".tmp" ∈ st.fs.bad ∨
      metaPath st (hashURL url) ∈ st.fs.bad) := by
    intro hx; rcases hx with hx | hx
    · exact h3 hx
    · exact h4 hx
  have e4 : stepOp (setStage st url response content now 3)
      (.fsRename (metaPath st (hashURL url) ++ ".tmp") (metaPath st (hashURL url)))
      = .ok (setStage st url response content now 4) := by
    simp [stepOp, renameFs, setStage, setFiles, fsLookup_store, hor2]
  have e5 : stepOp (setStage st url response content now 4)
      (.memSet (hashURL url) (setRecord url content now))
      = .ok (setStage st url response content now 5) := by
    rw [stepOp_memSet_eq]
    simp [setStage, setFiles]
  have e6 : stepOp (setStage st url response content now 5)
      (.fsWrite (indexPath st ++ ".tmp")
        (.indexDoc (idxSet st.index (hashURL url) (setRecord url content now))))
      = .ok (setStage st url response content now 6) := by
    simp [stepOp, writeFileFs, setStage, setFiles, h5]
  have hor3 : ¬ (indexPath st ++ ".tmp" ∈ st.fs.bad ∨ indexPath st ∈ st.fs.bad) := by
    intro hx; rcases hx with hx | hx
    · exact h5 hx
    · exact h6 hx
  have e7 : stepOp (setStage st url response content now 6)
      (.fsRename (indexPath st ++ ".tmp") (indexPath st))
      = .ok (setStage st url response content now 7) := by
    simp [stepOp, renameFs, setStage, setFiles, fsLookup_store, hor3]
  simp only [set, setOps, runOps, e1, e2, e3, e4, e5, e6, e7]

/-- In the final state of a successful `set`, the metadata artifact holds
exactly the metadata document that was built. -/
theorem setStage7_lookup_meta (st : CacheSt) (url : String) (response : RespDesc)
    (content : Bytes) (now : String) :
    fsLookup (setStage st url response content now 7).fs.files (metaPath st (hashURL url))
      = some (.metaDoc (setMeta st url response content now)) := by
  have n1 := meta_ne_index st (hashURL url)
  have n2 := meta_ne_indexTmp st (hashURL url)
  have n3 := meta_ne_metaTmp st (hashURL url) (hashURL url)
  simp [setStage, setFiles, fsLookup_store, fsLookup_remove_ne, n1, n2, n3]

/-- In the final state of a successful `set`, the content artifact holds
exactly the stored bytes. -/
theorem setStage7_lookup_content (st : CacheSt) (url : String) (response : RespDesc)
    (content : Bytes) (now : String) :
    fsLookup (setStage st url response content now 7).fs.files (contentPath st (hashURL url))
      = some (.bytes content) := by
  have n1 := content_ne_index st (hashURL url)
  have n2 := content_ne_indexTmp st (hashURL url)
  have n3 := content_ne_meta st (hashURL url) (hashURL url)
  have n4 := content_ne_metaTmp st (hashURL url) (hashURL url)
  have n5 := content_ne_contentTmp st (hashURL url) (hashURL url)
  simp [setStage, setFiles, fsLookup_store, fsLookup_remove_ne, n1, n2, n3, n4, n5]

/-- In the final state of a successful `set`, the index document on disk is
the updated index. -/
theorem setStage7_lookup_index (st : CacheSt) (url : String) (response : RespDesc)
    (content : Bytes) (now : String) :
    fsLookup (setStage st url response content now 7).fs.files (indexPath st)
      = some (.indexDoc (idxSet st.index (hashURL url) (setRecord url content now))) := by
  simp [setStage, setFiles, fsLookup_store]

/-- After a successful `set`, `get` on the same URL finds the entry and
returns the stored metadata and content, leaving the state unchanged. -/
theorem set_get {st st2 : CacheSt} {url : String} {response : RespDesc} {content : Bytes}
    {now : String} (hset : set st url response content now = (.ok (), st2)) :
    get st2 url = (.ok (some (setMeta st url response content now, .bytes content)), st2) := by
  obtain ⟨hfin, -, hb2, -, hb4, -, -⟩ := set_ok_final hset
  have hcd : st2.cacheDir = st.cacheDir := by rw [hfin]; rfl
  have hbad : st2.fs.bad = st.fs.bad := by rw [hfin]; rfl
  have hpc : contentPath st2 (hashURL url) = contentPath st (hashURL url) := by
    unfold contentPath entriesDir; rw [hcd]
  have hpm : metaPath st2 (hashURL url) = metaPath st (hashURL url) := by
    unfold metaPath entriesDir; rw [hcd]
  have hidx : idxLookup st2.index (hashURL url) = some (setRecord url content now) := by
    rw [hfin]
    simp [setStage, idxLookup_set]
  have hm : fsLookup st2.fs.files (metaPath st2 (hashURL url))
      = some (.metaDoc (setMeta st url response content now)) := by
    rw [hpm, hfin]
    exact setStage7_lookup_meta st url response content now
  have hc : fsLookup st2.fs.files (contentPath st2 (hashURL url))
      = some (.bytes content) := by
    rw [hpc, hfin]
    exact setStage7_lookup_content st url response content now
  have hmb : metaPath st2 (hashURL url) ∉ st2.fs.bad := by rw [hpm, hbad]; exact hb4
  have hcb : contentPath st2 (hashURL url) ∉ st2.fs.bad := by rw [hpc, hbad]; exact hb2
  simp [get, hidx, readEntry, readFile, hm, hc, hmb, hcb, parseMeta]

/-- Possible end states of running `saveIndex` from `st`: unchanged (write
failed), temp file written (rename failed), or fully renamed into place. -/
theorem saveIndexRun_cases (st : CacheSt) (ip : String) (idx : IndexMap) :
    (runOps st (saveIndexOps ip idx)).2 = st ∨
    (runOps st (saveIndexOps ip idx)).2
      = { st with fs := { st.fs with
            files := fsStore st.fs.files (ip ++ ".tmp") (.indexDoc idx) } } ∨
    (runOps st (saveIndexOps ip idx)).2
      = { st with fs := { st.fs with
            files := fsStore (fsRemove (fsStore st.fs.files (ip ++ ".tmp") (.indexDoc idx))
              (ip ++ ".tmp")) ip (.indexDoc idx) } } := by
  by_cases hb1 : ip ++ ".tmp" ∈ st.fs.bad
  · left
    simp [saveIndexOps, runOps, stepOp, writeFileFs, hb1]
  · by_cases hb2 : ip ∈ st.fs.bad
    · right; left
      simp [saveIndexOps, runOps, stepOp, writeFileFs, renameFs, hb1, hb2, fsLookup_store]
    · right; right
      simp [saveIndexOps, runOps, stepOp, writeFileFs, renameFs, hb1, hb2, fsLookup_store]

/-- When both index paths are writable, `saveIndex` succeeds and the index
document lands at the final path. -/
theorem saveIndexRun_ok (st : CacheSt) (ip : String) (idx : IndexMap)
    (h1 : ip ++ ".tmp" ∉ st.fs.bad) (h2 : ip ∉ st.fs.bad) :
    runOps st (saveIndexOps ip idx)
      = (.ok (), { st with fs := { st.fs with
          files := fsStore (fsRemove (fsStore st.fs.files (ip ++ ".tmp") (.indexDoc idx))
            (ip ++ ".tmp")) ip (.indexDoc idx) } }) := by
  simp [saveIndexOps, runOps, stepOp, writeFileFs, renameFs, h1, h2, fsLookup_store]

/-- C8: for every URL whose key has no record in the Index, `get` returns
absent with the whole state unchanged — no file is read or written and the
Index is not mutated, even when artifact files for that key exist on disk
(the state is arbitrary, so in particular the artifacts may be present). -/
theorem get_miss_frame (st : CacheSt) (url : String)
    (h : idxLookup st.index (hashURL url) = none) :
    get st url = (.ok none, st) := by
  simp [get, h]

/-- Witness for C8 at a concrete state whose entries directory does hold an
artifact file for some key. -/
theorem get_miss_frame_witness :
    idxLookup ([] : IndexMap) (hashURL "http://a.example") = none ∧
    get { cacheDir := "/app/cache", index := [],
          fs := { files := [("/app/cache/entries/deadbeef.content", .bytes [1, 2, 3])],
                  dirs := ["/app/cache/entries"], bad := [] } } "http://a.example"
      = (.ok none,
         { cacheDir := "/app/cache", index := [],
           fs := { files := [("/app/cache/entries/deadbeef.content", .bytes [1, 2, 3])],
                   dirs := ["/app/cache/entries"], bad := [] } }) :=
  ⟨rfl, get_miss_frame _ "http://a.example" rfl⟩

theorem idxLookup_mem {m : IndexMap} {q : String} {r : IndexRecord}
    (h : idxLookup m q = some r) : (q, r) ∈ m := by
  induction m with
  | nil => simp [idxLookup] at h
  | cons e rest ih =>
      obtain ⟨a, v⟩ := e
      by_cases h1 : a = q
      · subst h1
        simp only [idxLookup, if_pos rfl] at h
        rw [← Option.some.inj h]
        exact List.mem_cons_self _ _
      · simp only [idxLookup, if_neg h1] at h
        exact List.mem_cons_of_mem _ (ih h)

theorem idxSet_keys_mem {m : IndexMap} {k x : String} {r : IndexRecord}
    (h : x ∈ (idxSet m k r).map Prod.fst) : x = k ∨ x ∈ m.map Prod.fst := by
  induction m with
  | nil => simp [idxSet] at h; exact Or.inl h
  | cons e rest ih =>
      by_cases h1 : e.1 = k
      · simp only [idxSet, if_pos h1, List.map_cons, List.mem_cons] at h
        rcases h with h | h
        · exact Or.inr (by simp [h])
        · exact Or.inr (by simp [h])
      · simp only [idxSet, if_neg h1, List.map_cons, List.mem_cons] at h
        rcases h with h | h
        · exact Or.inr (by simp [h])
        · rcases ih h with h | h
          · exact Or.inl h
          · exact Or.inr (by simp [h])

theorem idxSet_keys_nodup {m : IndexMap} (k : String) (r : IndexRecord)
    (h : (m.map Prod.fst).Nodup) : ((idxSet m k r).map Prod.fst).Nodup := by
  induction m with
  | nil => simp [idxSet]
  | cons e rest ih =>
      simp only [List.map_cons, List.nodup_cons] at h
      by_cases h1 : e.1 = k
      · simp only [idxSet, if_pos h1, List.map_cons, List.nodup_cons]
        exact h
      · simp only [idxSet, if_neg h1, List.map_cons, List.nodup_cons]
        refine ⟨?_, ih h.2⟩
        intro hmem
        rcases idxSet_keys_mem hmem with hx | hx
        · exact h1 hx
        · exact h.1 hx

/-- C6: `list` returns one record per index key, in the public projected
shape, with `byteSize` the byte length of the payload stored by the most
recent `set` for that URL; it reads nothing from the filesystem and
introduces no duplicate keys. -/
theorem list_projection (st st2 : CacheSt) (url : String) (response : RespDesc)
    (content : Bytes) (now : String)
    (hset : set st url response content now = (.ok (), st2)) :
    (list st2).length = st2.index.length ∧
    (∀ fs2, list { st2 with fs := fs2 } = list st2) ∧
    idxLookup st2.index (hashURL url) = some (setRecord url content now) ∧
    (setRecord url content now).byteSize = content.length ∧
    ({ url := url, byteSize := content.length } : ListEntry) ∈ list st2 ∧
    (∀ e ∈ list st2, ∃ kr ∈ st2.index, e = { url := kr.2.url, byteSize := kr.2.byteSize }) ∧
    ((st.index.map Prod.fst).Nodup → (st2.index.map Prod.fst).Nodup) := by
  obtain ⟨hfin, -⟩ := set_ok_final hset
  have hidx2 : st2.index = idxSet st.index (hashURL url) (setRecord url content now) := by
    rw [hfin]; rfl
  have hlk : idxLookup st2.index (hashURL url) = some (setRecord url content now) := by
    rw [hidx2, idxLookup_set]
    simp
  refine ⟨by simp [list], fun fs2 => rfl, hlk, rfl, ?_, ?_, ?_⟩
  · have hmem := idxLookup_mem hlk
    have : ({ url := url, byteSize := content.length } : ListEntry)
        = { url := (hashURL url, setRecord url content now).2.url,
            byteSize := (hashURL url, setRecord url content now).2.byteSize } := rfl
    rw [this]
    exact List.mem_map_of_mem _ hmem
  · intro e he
    obtain ⟨kr, hkr, hekr⟩ := List.mem_map.mp he
    exact ⟨kr, hkr, hekr.symm⟩
  · intro hnd
    rw [hidx2]
    exact idxSet_keys_nodup _ _ hnd

/-- C4: after a successful `set`, `get` on the same URL returns the stored
bytes unchanged with metadata carrying the stored descriptor's content type
and the byte length of the stored content; after two successful `set` calls
for the same URL, `get` returns only the second payload. -/
theorem set_get_roundtrip (st st1 st2 : CacheSt) (url : String) (d1 d2 : RespDesc)
    (c1 c2 : Bytes) (n1 n2 : String)
    (hset1 : set st url d1 c1 n1 = (.ok (), st1))
    (hset2 : set st1 url d2 c2 n2 = (.ok (), st2)) :
    (get st1 url = (.ok (some (setMeta st url d1 c1 n1, .bytes c1)), st1) ∧
      (setMeta st url d1 c1 n1).contentType = d1.contentType ∧
      (setMeta st url d1 c1 n1).byteSize = c1.length) ∧
    (get st2 url = (.ok (some (setMeta st1 url d2 c2 n2, .bytes c2)), st2) ∧
      (setMeta st1 url d2 c2 n2).contentType = d2.contentType ∧
      (setMeta st1 url d2 c2 n2).byteSize = c2.length) :=
  ⟨⟨set_get hset1, rfl, rfl⟩, ⟨set_get hset2, rfl, rfl⟩⟩

/-- A fresh cache state used by the concrete witnesses. -/
def demoSt : CacheSt :=
  { cacheDir := "/app/cache", index := [],
    fs := { files := [], dirs := ["/app/cache/entries"], bad := [] } }

/-- A response descriptor used by the concrete witnesses. -/
def demoResp : RespDesc :=
  { statusCode := 200, headers := [("content-type", "text/plain")],
    contentType := "text/plain" }

/-- A second response descriptor used by the concrete witnesses. -/
def demoResp2 : RespDesc :=
  { statusCode := 200, headers := [("content-type", "application/json")],
    contentType := "application/json" }

/-- State after storing two bytes for one URL in the fresh cache. -/
def demoSt1 : CacheSt :=
  setStage demoSt "http://a.example" demoResp [10, 20] "2026-01-01T00:00:00.000Z" 7

/-- State after overwriting that URL with a one-byte payload. -/
def demoSt2 : CacheSt :=
  setStage demoSt1 "http://a.example" demoResp2 [9] "2026-01-02T00:00:00.000Z" 7

theorem demo_set1 :
    set demoSt "http://a.example" demoResp [10, 20] "2026-01-01T00:00:00.000Z"
      = (.ok (), demoSt1) :=
  set_ok demoSt "http://a.example" demoResp [10, 20] "2026-01-01T00:00:00.000Z"
    (by simp [demoSt]) (by simp [demoSt]) (by simp [demoSt])
    (by simp [demoSt]) (by simp [demoSt]) (by simp [demoSt])

theorem demo_set2 :
    set demoSt1 "http://a.example" demoResp2 [9] "2026-01-02T00:00:00.000Z"
      = (.ok (), demoSt2) :=
  set_ok demoSt1 "http://a.example" demoResp2 [9] "2026-01-02T00:00:00.000Z"
    (by simp [demoSt1, setStage, demoSt]) (by simp [demoSt1, setStage, demoSt])
    (by simp [demoSt1, setStage, demoSt]) (by simp [demoSt1, setStage, demoSt])
    (by simp [demoSt1, setStage, demoSt]) (by simp [demoSt1, setStage, demoSt])

/-- Witness for C4: both hypotheses hold at the concrete inputs, and `get`
after the two stores returns only the second payload. -/
theorem set_get_roundtrip_witness :
    set demoSt "http://a.example" demoResp [10, 20] "2026-01-01T00:00:00.000Z"
      = (.ok (), demoSt1) ∧
    set demoSt1 "http://a.example" demoResp2 [9] "2026-01-02T00:00:00.000Z"
      = (.ok (), demoSt2) ∧
    get demoSt2 "http://a.example"
      = (.ok (some (setMeta demoSt1 "http://a.example" demoResp2 [9]
          "2026-01-02T00:00:00.000Z", .bytes [9])), demoSt2) :=
  ⟨demo_set1, demo_set2,
   (set_get_roundtrip demoSt demoSt1 demoSt2 "http://a.example" demoResp demoResp2
     [10, 20] [9] "2026-01-01T00:00:00.000Z" "2026-01-02T00:00:00.000Z"
     demo_set1 demo_set2).2.1⟩

/-- Witness for C6: the hypothesis holds at the concrete input, and the
instantiated conclusions follow by applying the theorem. -/
theorem list_projection_witness :
    set demoSt "http://a.example" demoResp [10, 20] "2026-01-01T00:00:00.000Z"
      = (.ok (), demoSt1) ∧
    (list demoSt1).length = demoSt1.index.length ∧
    ({ url := "http://a.example", byteSize := 2 } : ListEntry) ∈ list demoSt1 :=
  ⟨demo_set1,
   (list_projection demoSt demoSt1 "http://a.example" demoResp [10, 20]
     "2026-01-01T00:00:00.000Z" demo_set1).1,
   (list_projection demoSt demoSt1 "http://a.example" demoResp [10, 20]
     "2026-01-01T00:00:00.000Z" demo_set1).2.2.2.2.1⟩

/-- Reading an entry whose artifacts are readable but at least one of which
is absent signals the missing-file error. -/
theorem readEntry_enoent (st : CacheSt) (h : String)
    (hmb : metaPath st h ∉ st.fs.bad) (hcb : contentPath st h ∉ st.fs.bad)
    (habs : fsLookup st.fs.files (metaPath st h) = none ∨
            fsLookup st.fs.files (contentPath st h) = none) :
    readEntry st h = .error .enoent := by
  by_cases hm : fsLookup st.fs.files (metaPath st h) = none
  · simp [readEntry, readFile, hmb, hm]
  · rcases habs with h1 | h1
    · exact absurd h1 hm
    · obtain ⟨dm, hdm⟩ := Option.ne_none_iff_exists'.mp hm
      simp [readEntry, readFile, hmb, hcb, hdm, h1]

/-- C1: with an index record present, if at least one artifact file is
absent (and no other I/O fault is in play), `get` removes the stale record,
persists the shrunken index, and reports a miss; a read failure that is not
file-absence propagates unchanged — whether it hits the metadata read or the
content read — leaving the state as it was. -/
theorem get_self_heal (st : CacheSt) (url : String) (r : IndexRecord)
    (hidx : idxLookup st.index (hashURL url) = some r) :
    ((fsLookup st.fs.files (metaPath st (hashURL url)) = none ∨
      fsLookup st.fs.files (contentPath st (hashURL url)) = none) →
     metaPath st (hashURL url) ∉ st.fs.bad →
     contentPath st (hashURL url) ∉ st.fs.bad →
     indexPath st ++ ".tmp" ∉ st.fs.bad →
     indexPath st ∉ st.fs.bad →
     (get st url).1 = .ok none ∧
     (get st url).2.index = idxErase st.index (hashURL url) ∧
     fsLookup (get st url).2.fs.files (indexPath st)
       = some (.indexDoc (idxErase st.index (hashURL url)))) ∧
    (metaPath st (hashURL url) ∈ st.fs.bad →
     get st url = (.error .eacces, st)) ∧
    (∀ d, fsLookup st.fs.files (metaPath st (hashURL url)) = some d →
     metaPath st (hashURL url) ∉ st.fs.bad →
     contentPath st (hashURL url) ∈ st.fs.bad →
     get st url = (.error .eacces, st)) := by
  refine ⟨?_, ?_, ?_⟩
  · intro habs hmb hcb hit hic
    have hre := readEntry_enoent st (hashURL url) hmb hcb habs
    have hrun := saveIndexRun_ok { st with index := idxErase st.index (hashURL url) }
      (indexPath st) (idxErase st.index (hashURL url)) hit hic
    simp [get, hidx, hre, hrun, fsLookup_store]
  · intro hmb
    simp [get, hidx, readEntry, readFile, hmb]
  · intro d hd hmb hcb
    simp [get, hidx, readEntry, readFile, hmb, hcb, hd]

/-- C9: when both artifacts exist and are readable but the metadata file
does not parse as JSON, `get` propagates the parse failure and neither
returns absent nor removes the index record. -/
theorem get_corrupt_propagates (st : CacheSt) (url : String) (r : IndexRecord) (b : Bytes)
    (hidx : idxLookup st.index (hashURL url) = some r)
    (hm : fsLookup st.fs.files (metaPath st (hashURL url)) = some .corrupt)
    (hc : fsLookup st.fs.files (contentPath st (hashURL url)) = some (.bytes b))
    (hmb : metaPath st (hashURL url) ∉ st.fs.bad)
    (hcb : contentPath st (hashURL url) ∉ st.fs.bad) :
    get st url = (.error .syntaxError, st) := by
  simp [get, hidx, readEntry, readFile, hm, hc, hmb, hcb, parseMeta]

/-- An index record used by the concrete witnesses. -/
def demoRec : IndexRecord :=
  { url := "http://a.example", byteSize := 2, cachedAt := "2026-01-01T00:00:00.000Z" }

/-- A state with an index record whose artifacts are missing on disk. -/
def demoHealSt : CacheSt :=
  { cacheDir := "/app/cache", index := [(hashURL "http://a.example", demoRec)],
    fs := { files := [], dirs := ["/app/cache/entries"], bad := [] } }

/-- Witness for C1: at a concrete stale state, the hypotheses hold and `get`
heals the index. -/
theorem get_self_heal_witness :
    idxLookup demoHealSt.index (hashURL "http://a.example") = some demoRec ∧
    (get demoHealSt "http://a.example").1 = .ok none ∧
    (get demoHealSt "http://a.example").2.index
      = idxErase demoHealSt.index (hashURL "http://a.example") := by
  have h := (get_self_heal demoHealSt "http://a.example" demoRec
      (by simp [demoHealSt, idxLookup])).1
    (Or.inl (by simp [demoHealSt, fsLookup])) (by simp [demoHealSt])
    (by simp [demoHealSt]) (by simp [demoHealSt]) (by simp [demoHealSt])
  exact ⟨by simp [demoHealSt, idxLookup], h.1, h.2.1⟩

/-- A state whose metadata artifact exists but holds unparseable text. -/
def demoCorruptSt : CacheSt :=
  { cacheDir := "/app/cache", index := [(hashURL "http://a.example", demoRec)],
    fs := { files := [(metaPath demoSt (hashURL "http://a.example"), .corrupt),
                      (contentPath demoSt (hashURL "http://a.example"), .bytes [1, 2])],
            dirs := ["/app/cache/entries"], bad := [] } }

/-- Witness for C9: at a concrete corrupt-metadata state, the hypotheses
hold and `get` propagates the parse failure with the state unchanged. -/
theorem get_corrupt_propagates_witness :
    fsLookup demoCorruptSt.fs.files (metaPath demoCorruptSt (hashURL "http://a.example"))
      = some .corrupt ∧
    get demoCorruptSt "http://a.example" = (.error .syntaxError, demoCorruptSt) := by
  have hmNe : metaPath demoSt (hashURL "http://a.example")
      ≠ contentPath demoSt (hashURL "http://a.example") :=
    (content_ne_meta demoSt (hashURL "http://a.example") (hashURL "http://a.example")).symm
  have hm : fsLookup demoCorruptSt.fs.files
      (metaPath demoCorruptSt (hashURL "http://a.example")) = some .corrupt := by
    show fsLookup demoCorruptSt.fs.files
      (metaPath demoSt (hashURL "http://a.example")) = some .corrupt
    simp [demoCorruptSt, fsLookup]
  have hc : fsLookup demoCorruptSt.fs.files
      (contentPath demoCorruptSt (hashURL "http://a.example")) = some (.bytes [1, 2]) := by
    show fsLookup demoCorruptSt.fs.files
      (contentPath demoSt (hashURL "http://a.example")) = some (.bytes [1, 2])
    simp [demoCorruptSt, fsLookup, hmNe]
  exact ⟨hm,
    get_corrupt_propagates demoCorruptSt "http://a.example" demoRec [1, 2]
      (by simp [demoCorruptSt, idxLookup]) hm hc
      (by simp [demoCorruptSt]) (by simp [demoCorruptSt])⟩

/-- C5: startup ensures the entries directory exists and then loads the
index document; exactly when the document is absent it starts from an empty
index and persists it at once; a present document is loaded as-is with no
write; a corrupt document or a read failure aborts startup. -/
theorem initializeCache_spec (dir : String) (fs0 : Fs) :
    ((dir ++ "/entries") ∉ fs0.bad →
     (dir ++ "/index.json") ∉ fs0.bad →
     (dir ++ "/index.json" ++ ".tmp") ∉ fs0.bad →
     fsLookup fs0.files (dir ++ "/index.json") = none →
     ∃ st2, initializeCache dir fs0 = .ok st2 ∧ st2.cacheDir = dir ∧ st2.index = [] ∧
       fsLookup st2.fs.files (dir ++ "/index.json") = some (.indexDoc []) ∧
       (dir ++ "/entries") ∈ st2.fs.dirs ∧ st2.fs.bad = fs0.bad) ∧
    (∀ d, (dir ++ "/entries") ∉ fs0.bad →
     (dir ++ "/index.json") ∉ fs0.bad →
     fsLookup fs0.files (dir ++ "/index.json") = some (.indexDoc d) →
     ∃ st2, initializeCache dir fs0 = .ok st2 ∧ st2.cacheDir = dir ∧ st2.index = d ∧
       st2.fs.files = fs0.files ∧ (dir ++ "/entries") ∈ st2.fs.dirs) ∧
    ((dir ++ "/entries") ∉ fs0.bad →
     (dir ++ "/index.json") ∉ fs0.bad →
     fsLookup fs0.files (dir ++ "/index.json") = some .corrupt →
     initializeCache dir fs0 = .error .syntaxError) ∧
    ((dir ++ "/entries") ∉ fs0.bad →
     (dir ++ "/index.json") ∈ fs0.bad →
     initializeCache dir fs0 = .error .eacces) := by
  refine ⟨?_, ?_, ?_, ?_⟩
  · intro hmk hic hit habs
    have hrun := saveIndexRun_ok
      { cacheDir := dir, index := [],
        fs := { fs0 with dirs := if (dir ++ "/entries") ∈ fs0.dirs then fs0.dirs
                                 else (dir ++ "/entries") :: fs0.dirs } }
      (dir ++ "/index.json") [] hit hic
    refine ⟨{ cacheDir := dir, index := [],
              fs := { files := fsStore (fsRemove (fsStore fs0.files
                        (dir ++ "/index.json" ++ ".tmp") (.indexDoc []))
                        (dir ++ "/index.json" ++ ".tmp"))
                        (dir ++ "/index.json") (.indexDoc []),
                      dirs := if (dir ++ "/entries") ∈ fs0.dirs then fs0.dirs
                              else (dir ++ "/entries") :: fs0.dirs,
                      bad := fs0.bad } }, ?_, rfl, rfl, ?_, ?_, rfl⟩
    · simp only [initializeCache, mkdirp, entriesDir, indexPath, readFile, if_neg hmk,
        if_neg hic, habs]
      rw [hrun]
    · simp [fsLookup_store]
    · by_cases hin : (dir ++ "/entries") ∈ fs0.dirs <;> simp [hin]
  · intro d hmk hic hd
    refine ⟨{ cacheDir := dir, index := d,
              fs := { files := fs0.files,
                      dirs := if (dir ++ "/entries") ∈ fs0.dirs then fs0.dirs
                              else (dir ++ "/entries") :: fs0.dirs,
                      bad := fs0.bad } }, ?_, rfl, rfl, rfl, ?_⟩
    · simp only [initializeCache, mkdirp, entriesDir, indexPath, readFile, if_neg hmk,
        if_neg hic, hd]
    · by_cases hin : (dir ++ "/entries") ∈ fs0.dirs <;> simp [hin]
  · intro hmk hic hd
    simp only [initializeCache, mkdirp, entriesDir, indexPath, readFile, if_neg hmk,
      if_neg hic, hd]
  · intro hmk hic
    simp only [initializeCache, mkdirp, entriesDir, indexPath, readFile, if_neg hmk,
      if_pos hic]

/-- Witness for C5: a fresh empty filesystem satisfies the absent-index
hypotheses, and startup creates and persists the empty index. -/
theorem initializeCache_spec_witness :
    fsLookup (Fs.mk [] [] []).files ("/app/cache" ++ "/index.json") = none ∧
    ∃ st2, initializeCache "/app/cache" (Fs.mk [] [] []) = .ok st2 ∧
      st2.cacheDir = "/app/cache" ∧ st2.index = [] ∧
      fsLookup st2.fs.files ("/app/cache" ++ "/index.json") = some (.indexDoc []) ∧
      ("/app/cache" ++ "/entries") ∈ st2.fs.dirs ∧ st2.fs.bad = (Fs.mk [] [] []).bad :=
  ⟨rfl,
   (initializeCache_spec "/app/cache" (Fs.mk [] [] [])).1
     (by simp) (by simp) (by simp) rfl⟩

/-- A path never equals its own `.tmp` sibling. -/
theorem str_ne_append_tmp (p : String) : p ≠ p ++ ".tmp" := by
  intro he
  have hlen := congrArg String.length he
  rw [String.length_append, show (".tmp" : String).length = 4 from rfl] at hlen
  omega

/-- Before the content rename, the content artifact is untouched. -/
theorem setStage_content_pre (st : CacheSt) (url : String) (response : RespDesc)
    (content : Bytes) (now : String) (i : Nat) (hi : i ≤ 1) :
    fsLookup (setStage st url response content now i).fs.files (contentPath st (hashURL url))
      = fsLookup st.fs.files (contentPath st (hashURL url)) := by
  have n1 := content_ne_contentTmp st (hashURL url) (hashURL url)
  rcases i with _ | _ | i
  · simp [setStage, setFiles]
  · simp [setStage, setFiles, fsLookup_store, n1]
  · omega

/-- From the content rename on, the content artifact holds the new bytes. -/
theorem setStage_content_val (st : CacheSt) (url : String) (response : RespDesc)
    (content : Bytes) (now : String) (i : Nat) (hi : 2 ≤ i) :
    fsLookup (setStage st url response content now i).fs.files (contentPath st (hashURL url))
      = some (.bytes content) := by
  have n1 := content_ne_contentTmp st (hashURL url) (hashURL url)
  have n3 := content_ne_meta st (hashURL url) (hashURL url)
  have n4 := content_ne_metaTmp st (hashURL url) (hashURL url)
  have n5 := content_ne_index st (hashURL url)
  have n6 := content_ne_indexTmp st (hashURL url)
  rcases i with _ | _ | _ | _ | _ | _ | _ | i
  · omega
  · omega
  · simp [setStage, setFiles, fsLookup_store]
  · simp [setStage, setFiles, fsLookup_store, fsLookup_remove_ne, n1, n4]
  · simp [setStage, setFiles, fsLookup_store, fsLookup_remove_ne, n1, n3, n4]
  · simp [setStage, setFiles, fsLookup_store, fsLookup_remove_ne, n1, n3, n4]
  · simp [setStage, setFiles, fsLookup_store, fsLookup_remove_ne, n1, n3, n4, n6]
  · simp [setStage, setFiles, fsLookup_store, fsLookup_remove_ne, n1, n3, n4, n5, n6]

/-- Before the metadata rename, the metadata artifact is untouched. -/
theorem setStage_meta_pre (st : CacheSt) (url : String) (response : RespDesc)
    (content : Bytes) (now : String) (i : Nat) (hi : i ≤ 3) :
    fsLookup (setStage st url response content now i).fs.files (metaPath st (hashURL url))
      = fsLookup st.fs.files (metaPath st (hashURL url)) := by
  have n1 := meta_ne_contentTmp st (hashURL url) (hashURL url)
  have n2 := (content_ne_meta st (hashURL url) (hashURL url)).symm
  have n3 := meta_ne_metaTmp st (hashURL url) (hashURL url)
  rcases i with _ | _ | _ | _ | i
  · simp [setStage, setFiles]
  · simp [setStage, setFiles, fsLookup_store, n1]
  · simp [setStage, setFiles, fsLookup_store, fsLookup_remove_ne, n1, n2]
  · simp [setStage, setFiles, fsLookup_store, fsLookup_remove_ne, n1, n2, n3]
  · omega

/-- From the metadata rename on, the metadata artifact holds the new
document. -/
theorem setStage_meta_val (st : CacheSt) (url : String) (response : RespDesc)
    (content : Bytes) (now : String) (i : Nat) (hi : 4 ≤ i) :
    fsLookup (setStage st url response content now i).fs.files (metaPath st (hashURL url))
      = some (.metaDoc (setMeta st url response content now)) := by
  have n5 := meta_ne_index st (hashURL url)
  have n6 := meta_ne_indexTmp st (hashURL url)
  rcases i with _ | _ | _ | _ | _ | _ | _ | i
  · omega
  · omega
  · omega
  · omega
  · simp [setStage, setFiles, fsLookup_store]
  · simp [setStage, setFiles, fsLookup_store]
  · simp [setStage, setFiles, fsLookup_store, n6]
  · simp [setStage, setFiles, fsLookup_store, fsLookup_remove_ne, n5, n6]

/-- Before the index rename, the index document on disk is untouched. -/
theorem setStage_index_pre (st : CacheSt) (url : String) (response : RespDesc)
    (content : Bytes) (now : String) (i : Nat) (hi : i ≤ 6) :
    fsLookup (setStage st url response content now i).fs.files (indexPath st)
      = fsLookup st.fs.files (indexPath st) := by
  have n1 := (contentTmp_ne_index st (hashURL url)).symm
  have n2 := (content_ne_index st (hashURL url)).symm
  have n3 := (metaTmp_ne_index st (hashURL url)).symm
  have n4 := (meta_ne_index st (hashURL url)).symm
  have n5 := index_ne_indexTmp st
  rcases i with _ | _ | _ | _ | _ | _ | _ | i
  · simp [setStage, setFiles]
  · simp [setStage, setFiles, fsLookup_store, n1]
  · simp [setStage, setFiles, fsLookup_store, fsLookup_remove_ne, n1, n2]
  · simp [setStage, setFiles, fsLookup_store, fsLookup_remove_ne, n1, n2, n3]
  · simp [setStage, setFiles, fsLookup_store, fsLookup_remove_ne, n1, n2, n3, n4]
  · simp [setStage, setFiles, fsLookup_store, fsLookup_remove_ne, n1, n2, n3, n4]
  · simp [setStage, setFiles, fsLookup_store, fsLookup_remove_ne, n1, n2, n3, n4, n5]
  · omega

/-- After the index rename, the index document on disk is the updated
index. -/
theorem setStage_index_val (st : CacheSt) (url : String) (response : RespDesc)
    (content : Bytes) (now : String) (i : Nat) (hi : 7 ≤ i) :
    fsLookup (setStage st url response content now i).fs.files (indexPath st)
      = some (.indexDoc (idxSet st.index (hashURL url) (setRecord url content now))) := by
  rcases i with _ | _ | _ | _ | _ | _ | _ | i
  · omega
  · omega
  · omega
  · omega
  · omega
  · omega
  · omega
  · simp [setStage, setFiles, fsLookup_store]

/-- The in-memory index at each stage: unchanged through the artifact phase,
updated from the `memSet` step on. -/
theorem setStage_index_mem (st : CacheSt) (url : String) (response : RespDesc)
    (content : Bytes) (now : String) (i : Nat) :
    (setStage st url response content now i).index
      = (if i < 5 then st.index
         else idxSet st.index (hashURL url) (setRecord url content now)) := rfl

/-- An op is index-neutral when it cannot change the in-memory index or the
file at the index path. -/
def opIndexNeutral (ip : String) : Op → Prop
  | .fsWrite p _ => p ≠ ip
  | .fsRename src dst => src ≠ ip ∧ dst ≠ ip
  | .memSet _ _ => False
  | .memDel _ => False

theorem stepOp_rename_ok_inv {st st2 : CacheSt} {src dst : String}
    (h : stepOp st (.fsRename src dst) = .ok st2) :
    ∃ d, fsLookup st.fs.files src = some d ∧ src ∉ st.fs.bad ∧ dst ∉ st.fs.bad ∧
      st2 = { st with fs := { st.fs with
        files := fsStore (fsRemove st.fs.files src) dst d } } := by
  by_cases hb : src ∈ st.fs.bad ∨ dst ∈ st.fs.bad
  · simp [stepOp, renameFs, hb] at h
  · push_neg at hb
    have hor : ¬ (src ∈ st.fs.bad ∨ dst ∈ st.fs.bad) := by
      intro hx
      rcases hx with hx | hx
      · exact hb.1 hx
      · exact hb.2 hx
    cases hl : fsLookup st.fs.files src with
    | none => simp [stepOp, renameFs, if_neg hor, hl] at h
    | some d =>
        simp only [stepOp, renameFs, if_neg hor, hl] at h
        exact ⟨d, rfl, hb.1, hb.2, (Except.ok.inj h).symm⟩

/-- Running only index-neutral ops leaves the in-memory index and the index
file untouched, whether or not some op fails. -/
theorem runOps_index_neutral (ops : List Op) (st : CacheSt) (ip : String)
    (h : ∀ op ∈ ops, opIndexNeutral ip op) :
    (runOps st ops).2.index = st.index ∧
    fsLookup (runOps st ops).2.fs.files ip = fsLookup st.fs.files ip := by
  induction ops generalizing st with
  | nil => exact ⟨rfl, rfl⟩
  | cons op ops ih =>
      cases hs : stepOp st op with
      | error e => simp [runOps, hs]
      | ok st2 =>
          have hop := h op (List.mem_cons_self _ _)
          have htail : ∀ o ∈ ops, opIndexNeutral ip o :=
            fun o ho => h o (List.mem_cons_of_mem _ ho)
          have hst2 : st2.index = st.index ∧
              fsLookup st2.fs.files ip = fsLookup st.fs.files ip := by
            cases op with
            | fsWrite p d =>
                obtain ⟨-, hw⟩ := stepOp_write_ok hs
                rw [hw]
                refine ⟨rfl, ?_⟩
                rw [fsLookup_store, if_neg (fun hh => hop hh.symm)]
            | fsRename src dst =>
                obtain ⟨d, hl, -, -, hw⟩ := stepOp_rename_ok_inv hs
                rw [hw]
                refine ⟨rfl, ?_⟩
                rw [fsLookup_store, if_neg (fun hh => hop.2 hh.symm),
                    fsLookup_remove_ne _ _ _ (fun hh => hop.1 hh.symm)]
            | memSet kk r => exact absurd hop (by simp [opIndexNeutral])
            | memDel kk => exact absurd hop (by simp [opIndexNeutral])
          have hrec := ih st2 htail
          simp only [runOps, hs]
          exact ⟨hrec.1.trans hst2.1, hrec.2.trans hst2.2⟩

/-- C2: every persisted write in `set` and in `saveIndex` first writes the
full data to a sibling `.tmp` path and then renames that sibling over the
final path; consequently, after any prefix of the execution (any crash
point), each of the three final paths holds either its prior content or the
complete new value — never anything else. -/
theorem atomic_replace (st : CacheSt) (url : String) (response : RespDesc)
    (content : Bytes) (now : String) (k : Nat) :
    (∀ op ∈ setOps st url response content now,
       (∀ p d, op = Op.fsWrite p d → ∃ q, p = q ++ ".tmp") ∧
       (∀ src dst, op = Op.fsRename src dst → src = dst ++ ".tmp")) ∧
    (∀ ip : String, ∀ idx : IndexMap, ∀ op ∈ saveIndexOps ip idx,
       (∀ p d, op = Op.fsWrite p d → ∃ q, p = q ++ ".tmp") ∧
       (∀ src dst, op = Op.fsRename src dst → src = dst ++ ".tmp")) ∧
    (fsLookup (runOps st ((setOps st url response content now).take k)).2.fs.files
        (contentPath st (hashURL url))
       = fsLookup st.fs.files (contentPath st (hashURL url)) ∨
     fsLookup (runOps st ((setOps st url response content now).take k)).2.fs.files
        (contentPath st (hashURL url)) = some (.bytes content)) ∧
    (fsLookup (runOps st ((setOps st url response content now).take k)).2.fs.files
        (metaPath st (hashURL url))
       = fsLookup st.fs.files (metaPath st (hashURL url)) ∨
     fsLookup (runOps st ((setOps st url response content now).take k)).2.fs.files
        (metaPath st (hashURL url))
       = some (.metaDoc (setMeta st url response content now))) ∧
    (fsLookup (runOps st ((setOps st url response content now).take k)).2.fs.files
        (indexPath st)
       = fsLookup st.fs.files (indexPath st) ∨
     fsLookup (runOps st ((setOps st url response content now).take k)).2.fs.files
        (indexPath st)
       = some (.indexDoc (idxSet st.index (hashURL url) (setRecord url content now)))) := by
  have hmem := runOps_take_mem_statesOf (setOps st url response content now) st k
  obtain ⟨i, -, heq⟩ := statesOf_set st url response content now _ hmem
  refine ⟨?_, ?_, ?_, ?_, ?_⟩
  · intro op hop
    simp only [setOps, List.mem_cons, List.not_mem_nil, or_false] at hop
    rcases hop with h | h | h | h | h | h | h <;> subst h
    · exact ⟨fun p d heq2 => by injection heq2 with h1 _; exact ⟨_, h1.symm⟩,
             fun src dst heq2 => Op.noConfusion heq2⟩
    · exact ⟨fun p d heq2 => Op.noConfusion heq2,
             fun src dst heq2 => by injection heq2 with h1 h2; rw [← h1, ← h2]⟩
    · exact ⟨fun p d heq2 => by injection heq2 with h1 _; exact ⟨_, h1.symm⟩,
             fun src dst heq2 => Op.noConfusion heq2⟩
    · exact ⟨fun p d heq2 => Op.noConfusion heq2,
             fun src dst heq2 => by injection heq2 with h1 h2; rw [← h1, ← h2]⟩
    · exact ⟨fun p d heq2 => Op.noConfusion heq2,
             fun src dst heq2 => Op.noConfusion heq2⟩
    · exact ⟨fun p d heq2 => by injection heq2 with h1 _; exact ⟨_, h1.symm⟩,
             fun src dst heq2 => Op.noConfusion heq2⟩
    · exact ⟨fun p d heq2 => Op.noConfusion heq2,
             fun src dst heq2 => by injection heq2 with h1 h2; rw [← h1, ← h2]⟩
  · intro ip idx op hop
    simp only [saveIndexOps, List.mem_cons, List.not_mem_nil, or_false] at hop
    rcases hop with h | h <;> subst h
    · exact ⟨fun p d heq2 => by injection heq2 with h1 _; exact ⟨_, h1.symm⟩,
             fun src dst heq2 => Op.noConfusion heq2⟩
    · exact ⟨fun p d heq2 => Op.noConfusion heq2,
             fun src dst heq2 => by injection heq2 with h1 h2; rw [← h1, ← h2]⟩
  · rw [heq]
    by_cases h2 : 2 ≤ i
    · exact Or.inr (setStage_content_val st url response content now i h2)
    · exact Or.inl (setStage_content_pre st url response content now i (by omega))
  · rw [heq]
    by_cases h4 : 4 ≤ i
    · exact Or.inr (setStage_meta_val st url response content now i h4)
    · exact Or.inl (setStage_meta_pre st url response content now i (by omega))
  · rw [heq]
    by_cases h7 : 7 ≤ i
    · exact Or.inr (setStage_index_val st url response content now i h7)
    · exact Or.inl (setStage_index_pre st url response content now i (by omega))

/-- Witness for C2: the first step of a concrete `set` writes to a `.tmp`
sibling, and after a crash three steps in, the content path holds either
the prior or the complete new value. -/
theorem atomic_replace_witness :
    (∃ q, contentPath demoSt (hashURL "http://a.example") ++ ".tmp" = q ++ ".tmp") ∧
    (fsLookup (runOps demoSt ((setOps demoSt "http://a.example" demoResp [10, 20]
        "2026-01-01T00:00:00.000Z").take 3)).2.fs.files
        (contentPath demoSt (hashURL "http://a.example"))
       = fsLookup demoSt.fs.files (contentPath demoSt (hashURL "http://a.example")) ∨
     fsLookup (runOps demoSt ((setOps demoSt "http://a.example" demoResp [10, 20]
        "2026-01-01T00:00:00.000Z").take 3)).2.fs.files
        (contentPath demoSt (hashURL "http://a.example")) = some (.bytes [10, 20])) :=
  ⟨((atomic_replace demoSt "http://a.example" demoResp [10, 20]
      "2026-01-01T00:00:00.000Z" 3).1
      (Op.fsWrite (contentPath demoSt (hashURL "http://a.example") ++ ".tmp")
        (.bytes [10, 20]))
      (by simp [setOps])).1 _ _ rfl,
   (atomic_replace demoSt "http://a.example" demoResp [10, 20]
      "2026-01-01T00:00:00.000Z" 3).2.2.1⟩

/-- C3: `set` writes the content artifact, then the metadata artifact, and
only then updates and persists the index: after any prefix of at most the
four artifact steps the index is unchanged in memory and on disk; whenever
the index has been touched at all, both artifacts are already complete; and
a failure in the artifact phase propagates with the index — in memory and
on disk — unchanged. -/
theorem set_write_ordering (st : CacheSt) (url : String) (response : RespDesc)
    (content : Bytes) (now : String) (k : Nat) :
    (k ≤ 4 →
      (runOps st ((setOps st url response content now).take k)).2.index = st.index ∧
      fsLookup (runOps st ((setOps st url response content now).take k)).2.fs.files
          (indexPath st)
        = fsLookup st.fs.files (indexPath st)) ∧
    ((runOps st ((setOps st url response content now).take k)).2.index = st.index ∨
     ((runOps st ((setOps st url response content now).take k)).2.index
        = idxSet st.index (hashURL url) (setRecord url content now) ∧
      fsLookup (runOps st ((setOps st url response content now).take k)).2.fs.files
          (contentPath st (hashURL url)) = some (.bytes content) ∧
      fsLookup (runOps st ((setOps st url response content now).take k)).2.fs.files
          (metaPath st (hashURL url))
        = some (.metaDoc (setMeta st url response content now)))) ∧
    ((contentPath st (hashURL url) ++ ".tmp" ∈ st.fs.bad ∨
      contentPath st (hashURL url) ∈ st.fs.bad ∨
      metaPath st (hashURL url) ++ ".tmp" ∈ st.fs.bad ∨
      metaPath st (hashURL url) ∈ st.fs.bad) →
     (set st url response content now).1 = .error .eacces ∧
     (set st url response content now).2.index = st.index ∧
     fsLookup (set st url response content now).2.fs.files (indexPath st)
       = fsLookup st.fs.files (indexPath st)) := by
  have hmem := runOps_take_mem_statesOf (setOps st url response content now) st k
  obtain ⟨i, -, heq⟩ := statesOf_set st url response content now _ hmem
  have hmem2 := runOps_snd_mem_statesOf (setOps st url response content now) st
  obtain ⟨j, -, heq2⟩ := statesOf_set st url response content now _ hmem2
  refine ⟨?_, ?_, ?_⟩
  · intro hk4
    have hneutral : ∀ op ∈ (setOps st url response content now).take k,
        opIndexNeutral (indexPath st) op := by
      intro op hop
      have hre : (setOps st url response content now).take k
          = ((setOps st url response content now).take 4).take k := by
        rw [List.take_take, Nat.min_eq_left hk4]
      rw [hre] at hop
      have hop4 := List.take_subset _ _ hop
      simp only [setOps, List.take_succ_cons, List.take_zero, List.mem_cons,
        List.not_mem_nil, or_false] at hop4
      rcases hop4 with h | h | h | h <;> subst h
      · exact contentTmp_ne_index st (hashURL url)
      · exact ⟨contentTmp_ne_index st (hashURL url), content_ne_index st (hashURL url)⟩
      · exact metaTmp_ne_index st (hashURL url)
      · exact ⟨metaTmp_ne_index st (hashURL url), meta_ne_index st (hashURL url)⟩
    exact runOps_index_neutral _ st (indexPath st) hneutral
  · rw [heq]
    by_cases h5 : i < 5
    · exact Or.inl (by rw [setStage_index_mem, if_pos h5])
    · refine Or.inr ⟨by rw [setStage_index_mem, if_neg h5], ?_, ?_⟩
      · exact setStage_content_val st url response content now i (by omega)
      · exact setStage_meta_val st url response content now i (by omega)
  · intro hbad
    by_cases b1 : contentPath st (hashURL url) ++ ".tmp" ∈ st.fs.bad
    · have hrun : set st url response content now = (.error .eacces, st) := by
        simp [set, setOps, runOps, stepOp, writeFileFs, b1]
      rw [hrun]
      exact ⟨rfl, rfl, rfl⟩
    · by_cases b2 : contentPath st (hashURL url) ∈ st.fs.bad
      · have hrun : set st url response content now
            = (.error .eacces, setStage st url response content now 1) := by
          simp [set, setOps, runOps, stepOp, writeFileFs, renameFs, b1, b2,
            setStage, setFiles, fsLookup_store]
        rw [hrun]
        exact ⟨rfl, by rw [setStage_index_mem]; simp,
          setStage_index_pre st url response content now 1 (by omega)⟩
      · by_cases b3 : metaPath st (hashURL url) ++ ".tmp" ∈ st.fs.bad
        · have hrun : set st url response content now
              = (.error .eacces, setStage st url response content now 2) := by
            simp [set, setOps, runOps, stepOp, writeFileFs, renameFs, b1, b2, b3,
              setStage, setFiles, fsLookup_store]
          rw [hrun]
          exact ⟨rfl, by rw [setStage_index_mem]; simp,
            setStage_index_pre st url response content now 2 (by omega)⟩
        · by_cases b4 : metaPath st (hashURL url) ∈ st.fs.bad
          · have hrun : set st url response content now
                = (.error .eacces, setStage st url response content now 3) := by
              simp [set, setOps, runOps, stepOp, writeFileFs, renameFs, b1, b2, b3, b4,
                setStage, setFiles, fsLookup_store]
            rw [hrun]
            exact ⟨rfl, by rw [setStage_index_mem]; simp,
              setStage_index_pre st url response content now 3 (by omega)⟩
          · rcases hbad with h | h | h | h <;> contradiction

theorem flatten_map_byteHex_length (bs : List Nat) :
    ((bs.map byteHex).flatten).length = 2 * bs.length := by
  induction bs with
  | nil => simp
  | cons b rest ih =>
      simp [byteHex, ih]
      omega

theorem sha256_length (msg : List Nat) : (sha256 msg).length = 32 := by
  simp [sha256, stateToBytes, be32]

theorem hashURL_length (u : String) : (hashURL u).length = 64 := by
  show ((sha256 (utf8Encode u)).map byteHex).flatten.length = 64
  rw [flatten_map_byteHex_length, sha256_length]

theorem be32_lt (n : Nat) : ∀ b ∈ be32 n, b < 256 := by
  intro b hb
  simp only [be32, List.mem_cons, List.not_mem_nil, or_false] at hb
  rcases hb with rfl | rfl | rfl | rfl <;> exact Nat.mod_lt _ (by decide)

theorem sha256_lt (msg : List Nat) : ∀ b ∈ sha256 msg, b < 256 := by
  intro b hb
  simp only [sha256, stateToBytes, List.mem_append] at hb
  rcases hb with ((((((h | h) | h) | h) | h) | h) | h) | h <;> exact be32_lt _ b h

/-- The digest, folded into a function with a finite codomain (32 bytes,
each below 256). -/
def digFn (u : String) : Fin 32 → Fin 256 := fun i =>
  ⟨(sha256 (utf8Encode u)).getD i.1 0 % 256, Nat.mod_lt _ (by decide)⟩

theorem dig_eq_of_digFn_eq {x y : String} (h : digFn x = digFn y) :
    sha256 (utf8Encode x) = sha256 (utf8Encode y) := by
  apply List.ext_getElem (by rw [sha256_length, sha256_length])
  intro i h1 h2
  have hi : i < 32 := by rw [sha256_length] at h1; exact h1
  have hfi := congrFun h ⟨i, hi⟩
  have hval : (sha256 (utf8Encode x)).getD i 0 % 256
      = (sha256 (utf8Encode y)).getD i 0 % 256 := congrArg Fin.val hfi
  rw [List.getD_eq_getElem _ 0 h1, List.getD_eq_getElem _ 0 h2] at hval
  have bx := sha256_lt (utf8Encode x) _ (List.getElem_mem h1)
  have hy := sha256_lt (utf8Encode y) _ (List.getElem_mem h2)
  rw [Nat.mod_eq_of_lt bx, Nat.mod_eq_of_lt hy] at hval
  exact hval

/-- Counterexample core for C7: a fixed-width digest over an infinite domain
of URL strings cannot be injective, so "distinct URL strings produce
distinct keys" is false as an absolute statement (though no concrete
collision for SHA-256 is known, the key space is finite). -/
theorem hashURL_not_injective :
    ¬ ∀ u v : String, u ≠ v → hashURL u ≠ hashURL v := by
  intro hinj
  obtain ⟨x, y, hxy, hfeq⟩ := Finite.exists_ne_map_eq_of_infinite digFn
  exact hinj x y hxy (congrArg hexOfBytes (dig_eq_of_digFn_eq hfeq))

theorem hexDigit_mem (n : Nat) (h : n < 16) :
    hexDigit n ∈ ("0123456789abcdef" : String).data := by
  interval_cases n <;> decide

/-- C7 (amended): `hashURL` is a pure function — identical URL strings give
identical keys — and its result is always a 64-character string of lowercase
hexadecimal digits; absolute injectivity on distinct URLs does not hold (see
the counterexample) and is amended to collision resistance only. -/
theorem hashURL_spec (u v : String) (h : u = v) :
    hashURL u = hashURL v ∧
    (hashURL u).length = 64 ∧
    (∀ c ∈ (hashURL u).data, c ∈ ("0123456789abcdef" : String).data) := by
  subst h
  refine ⟨rfl, hashURL_length u, ?_⟩
  intro c hc
  have hc2 : c ∈ ((sha256 (utf8Encode u)).map byteHex).flatten := hc
  rw [List.mem_flatten] at hc2
  obtain ⟨l, hl, hcl⟩ := hc2
  rw [List.mem_map] at hl
  obtain ⟨b, -, rfl⟩ := hl
  simp only [byteHex, List.mem_cons, List.not_mem_nil, or_false] at hcl
  rcases hcl with rfl | rfl
  · exact hexDigit_mem _ (Nat.mod_lt _ (by decide))
  · exact hexDigit_mem _ (Nat.mod_lt _ (by decide))

/-- Witness for C7's amended theorem at a concrete URL. -/
theorem hashURL_spec_witness :
    ("http://a.example" : String) = "http://a.example" ∧
    (hashURL "http://a.example" = hashURL "http://a.example" ∧
     (hashURL "http://a.example").length = 64 ∧
     (∀ c ∈ (hashURL "http://a.example").data,
        c ∈ ("0123456789abcdef" : String).data)) :=
  ⟨rfl, hashURL_spec "http://a.example" "http://a.example" rfl⟩

/-- A state whose content temp path cannot be written (injected failure). -/
def demoBadSt : CacheSt :=
  { cacheDir := "/app/cache", index := [],
    fs := { files := [], dirs := ["/app/cache/entries"],
            bad := [contentPath demoSt (hashURL "http://a.example") ++ ".tmp"] } }

/-- Witness for C3: after two steps of a concrete `set` the index is
untouched, and when the content temp path cannot be written the whole `set`
fails with the index unchanged. -/
theorem set_write_ordering_witness :
    (runOps demoSt ((setOps demoSt "http://a.example" demoResp [10, 20]
        "2026-01-01T00:00:00.000Z").take 2)).2.index = demoSt.index ∧
    (set demoBadSt "http://a.example" demoResp [10, 20]
        "2026-01-01T00:00:00.000Z").1 = .error .eacces ∧
    (set demoBadSt "http://a.example" demoResp [10, 20]
        "2026-01-01T00:00:00.000Z").2.index = demoBadSt.index := by
  have hbadmem : contentPath demoBadSt (hashURL "http://a.example") ++ ".tmp"
      ∈ demoBadSt.fs.bad := by
    show contentPath demoSt (hashURL "http://a.example") ++ ".tmp" ∈ demoBadSt.fs.bad
    simp [demoBadSt]
  have h3 := (set_write_ordering demoBadSt "http://a.example" demoResp [10, 20]
    "2026-01-01T00:00:00.000Z" 0).2.2 (Or.inl hbadmem)
  exact ⟨((set_write_ordering demoSt "http://a.example" demoResp [10, 20]
    "2026-01-01T00:00:00.000Z" 2).1 (by omega)).1, h3.1, h3.2.1⟩

/-- Any op of `set` leaves a path distinct from all six touched paths
untouched, at every stage. -/
theorem setFiles_lookup_frame (st : CacheSt) (url : String) (response : RespDesc)
    (content : Bytes) (now : String) (p : String)
    (hp1 : p ≠ contentPath st (hashURL url) ++ ".tmp")
    (hp2 : p ≠ contentPath st (hashURL url))
    (hp3 : p ≠ metaPath st (hashURL url) ++ ".tmp")
    (hp4 : p ≠ metaPath st (hashURL url))
    (hp5 : p ≠ indexPath st ++ ".tmp")
    (hp6 : p ≠ indexPath st) (i : Nat) :
    fsLookup (setFiles st url response content now i) p = fsLookup st.fs.files p := by
  rcases i with _ | _ | _ | _ | _ | _ | _ | i <;>
    simp [setFiles, fsLookup_store, fsLookup_remove_ne, hp1, hp2, hp3, hp4, hp5, hp6]

/-- C10: `set url` and `get url` leave every index record whose key differs
from `hashURL url` unchanged and never touch the artifact files of any other
key; `get` removes at most the record for `hashURL url` and never adds or
modifies records. -/
theorem per_key_frame (st : CacheSt) (url : String) (response : RespDesc)
    (content : Bytes) (now : String) (kk : String) (hk : kk ≠ hashURL url) :
    (idxLookup (set st url response content now).2.index kk = idxLookup st.index kk ∧
     fsLookup (set st url response content now).2.fs.files (contentPath st kk)
       = fsLookup st.fs.files (contentPath st kk) ∧
     fsLookup (set st url response content now).2.fs.files (metaPath st kk)
       = fsLookup st.fs.files (metaPath st kk)) ∧
    (idxLookup (get st url).2.index kk = idxLookup st.index kk ∧
     fsLookup (get st url).2.fs.files (contentPath st kk)
       = fsLookup st.fs.files (contentPath st kk) ∧
     fsLookup (get st url).2.fs.files (metaPath st kk)
       = fsLookup st.fs.files (metaPath st kk) ∧
     ((get st url).2.index = st.index ∨
      (get st url).2.index = idxErase st.index (hashURL url))) := by
  have hcne1 := content_ne_contentTmp st kk (hashURL url)
  have hcne2 : contentPath st kk ≠ contentPath st (hashURL url) :=
    fun he => hk (content_inj st he)
  have hcne3 := content_ne_metaTmp st kk (hashURL url)
  have hcne4 := content_ne_meta st kk (hashURL url)
  have hcne5 := content_ne_indexTmp st kk
  have hcne6 := content_ne_index st kk
  have hmne1 := meta_ne_contentTmp st kk (hashURL url)
  have hmne2 : metaPath st kk ≠ contentPath st (hashURL url) :=
    (content_ne_meta st (hashURL url) kk).symm
  have hmne3 := meta_ne_metaTmp st kk (hashURL url)
  have hmne4 : metaPath st kk ≠ metaPath st (hashURL url) :=
    fun he => hk (meta_inj st he)
  have hmne5 := meta_ne_indexTmp st kk
  have hmne6 := meta_ne_index st kk
  constructor
  · obtain ⟨i, -, heq⟩ := statesOf_set st url response content now _
      (runOps_snd_mem_statesOf (setOps st url response content now) st)
    have hs2 : (set st url response content now).2
        = setStage st url response content now i := heq
    rw [hs2]
    refine ⟨?_, ?_, ?_⟩
    · rw [setStage_index_mem]
      by_cases h5 : i < 5
      · rw [if_pos h5]
      · rw [if_neg h5, idxLookup_set, if_neg hk]
    · exact setFiles_lookup_frame st url response content now _
        hcne1 hcne2 hcne3 hcne4 hcne5 hcne6 i
    · exact setFiles_lookup_frame st url response content now _
        hmne1 hmne2 hmne3 hmne4 hmne5 hmne6 i
  · cases hidx : idxLookup st.index (hashURL url) with
    | none =>
        have hg : get st url = (.ok none, st) := by simp [get, hidx]
        rw [hg]
        exact ⟨rfl, rfl, rfl, Or.inl rfl⟩
    | some r =>
        cases hre : readEntry st (hashURL url) with
        | ok v =>
            have hg : get st url = (.ok (some v), st) := by
              obtain ⟨md, fd⟩ := v
              simp [get, hidx, hre]
            rw [hg]
            exact ⟨rfl, rfl, rfl, Or.inl rfl⟩
        | error e =>
            cases e with
            | eacces =>
                have hg : get st url = (.error .eacces, st) := by simp [get, hidx, hre]
                rw [hg]
                exact ⟨rfl, rfl, rfl, Or.inl rfl⟩
            | syntaxError =>
                have hg : get st url = (.error .syntaxError, st) := by
                  simp [get, hidx, hre]
                rw [hg]
                exact ⟨rfl, rfl, rfl, Or.inl rfl⟩
            | enoent =>
                rcases hrun : runOps
                    { st with index := idxErase st.index (hashURL url) }
                    (saveIndexOps (indexPath st) (idxErase st.index (hashURL url)))
                  with ⟨res, st3⟩
                have hg2 : (get st url).2 = st3 := by
                  cases res <;> simp [get, hidx, hre, hrun]
                have hcases := saveIndexRun_cases
                  { st with index := idxErase st.index (hashURL url) }
                  (indexPath st) (idxErase st.index (hashURL url))
                rw [hrun] at hcases
                rw [hg2]
                have herase := idxLookup_erase_ne st.index (hashURL url) kk hk
                rcases hcases with hc | hc | hc <;> rw [show st3 = _ from hc]
                · exact ⟨herase, rfl, rfl, Or.inr rfl⟩
                · refine ⟨herase, ?_, ?_, Or.inr rfl⟩
                  · rw [fsLookup_store, if_neg hcne5]
                  · rw [fsLookup_store, if_neg hmne5]
                · refine ⟨herase, ?_, ?_, Or.inr rfl⟩
                  · rw [fsLookup_store, if_neg hcne6,
                        fsLookup_remove_ne _ _ _ hcne5, fsLookup_store, if_neg hcne5]
                  · rw [fsLookup_store, if_neg hmne6,
                        fsLookup_remove_ne _ _ _ hmne5, fsLookup_store, if_neg hmne5]

/-- Witness for C10 at a concrete second key: storing one URL leaves the
other key's index record and artifacts untouched, and `get` never adds
records. -/
theorem per_key_frame_witness :
    ("otherkey" ≠ hashURL "http://a.example") ∧
    idxLookup (set demoSt "http://a.example" demoResp [10, 20]
        "2026-01-01T00:00:00.000Z").2.index "otherkey"
      = idxLookup demoSt.index "otherkey" ∧
    ((get demoSt "http://a.example").2.index = demoSt.index ∨
     (get demoSt "http://a.example").2.index
       = idxErase demoSt.index (hashURL "http://a.example")) := by
  have hne : "otherkey" ≠ hashURL "http://a.example" := by
    intro he
    have hlen := congrArg String.length he
    rw [hashURL_length] at hlen
    simp [String.length] at hlen
  have h := per_key_frame demoSt "http://a.example" demoResp [10, 20]
    "2026-01-01T00:00:00.000Z" "otherkey" hne
  exact ⟨hne, h.1.1, h.2.2.2.2⟩

end FileCache
